import Mathlib

/-!
Verification of the json-formatter core: a shallow embedding of the
JSONValidator, JSONFormatter, JSONProcessor and ErrorInfo modules, together
with a model of the host platform's JSON parse/serialize primitives.

Modelling conventions:
- JS strings are embedded as `List Char` (`Str`); `Blob([s]).size` is the
  UTF-8 byte length; `s.length` (UTF-16 code units) is `jsLength`.
- `performance.now()` is an abstract clock `ℕ → ℚ`; every function that reads
  the clock threads a read counter, mirroring the order of reads in the source.
- JS `x || d` on numeric options (0 and undefined fall back to the default) is
  `jsOr`.
- JS reads of object properties that the code never assigns yield `undefined`,
  embedded as an `Option` field that stays `none`.
-/

abbrev Str := List Char

/-- UTF-8 byte length of one scalar value, as measured by `Blob`. -/
def utf8Len (c : Char) : Nat :=
  if c.toNat < 128 then 1
  else if c.toNat < 2048 then 2
  else if c.toNat < 65536 then 3
  else 4

/-- `new Blob([content]).size`: UTF-8 byte length of the text. -/
def blobSize (s : Str) : Nat := (s.map utf8Len).sum

/-- JS `String.prototype.length`: UTF-16 code-unit count. -/
def jsLength (s : Str) : Nat :=
  (s.map (fun c => if c.toNat < 65536 then 1 else 2)).sum

/-- Code points treated as whitespace by JS `String.prototype.trim`. -/
def jsWsCodes : List Nat :=
  [9, 10, 11, 12, 13, 32, 160, 5760, 8192, 8193, 8194, 8195, 8196, 8197,
   8198, 8199, 8200, 8201, 8202, 8232, 8233, 8239, 8287, 12288, 65279]

def isJSWs (c : Char) : Bool := decide (c.toNat ∈ jsWsCodes)

/-- JS `content.trim()`. -/
def jsTrim (s : Str) : Str :=
  ((s.dropWhile isJSWs).reverse.dropWhile isJSWs).reverse

/-- ASCII lowercasing, as `String.prototype.toLowerCase` behaves on the ASCII
error messages this code handles. -/
def toLowerStr (s : Str) : Str := s.map Char.toLower

/-- JS `a.includes(b)` substring test (`b` an infix of `a`). -/
def containsSub (pat : Str) : Str → Bool
  | [] => decide (pat = [])
  | c :: cs => List.isPrefixOf pat (c :: cs) || containsSub pat cs

def digitChar (n : Nat) : Char := Char.ofNat (48 + n)

def digitVal (c : Char) : Nat := c.toNat - 48

/-- Decimal digits of `n`, most significant first; the fuel bounds the number
of divisions and `natToDigits` supplies enough of it. -/
def natToDigitsAux : Nat → Nat → Str → Str
  | 0, n, acc => digitChar (n % 10) :: acc
  | f + 1, n, acc =>
      if n < 10 then digitChar n :: acc
      else natToDigitsAux f (n / 10) (digitChar (n % 10) :: acc)

def natToDigits (n : Nat) : Str := natToDigitsAux n n []

/-- Canonical serialization of an integer, as the host writes JS integers. -/
def intToDigits (i : Int) : Str :=
  if i < 0 then '-' :: natToDigits i.natAbs else natToDigits i.toNat

/-- Numeric value of a digit string (the effect of `parseInt(ds, 10)`). -/
def digitsToNat (ds : Str) : Nat := ds.foldl (fun a c => a * 10 + digitVal c) 0

/-- Decimal-digit test (the character class of `\d`). -/
def isDigitC (c : Char) : Bool := decide (48 ≤ c.toNat) && decide (c.toNat ≤ 57)

/-- Splits off the maximal leading run of decimal digits. -/
def takeDigits (s : Str) : Str × Str :=
  (s.takeWhile isDigitC, s.dropWhile isDigitC)

/-! ## The byte formatter shared by JSONValidator and ErrorInfo

`_formatBytes` computes `parseFloat((bytes / 1024^i).toFixed(2)) + ' ' + sizes[i]`
with `i = floor(log(bytes) / log(1024))`.  The double-precision `Math.log`,
`Math.pow` and division are modelled by exact arithmetic: `i` is `natLog1024`
and the `toFixed(2)` rounding (round to nearest, ties up) of `bytes / 1024^i`
is the integer `(200 * bytes + 1024^i) / (2 * 1024^i)` counted in hundredths.
`parseFloat` of the fixed 2-decimal string drops trailing fractional zeros;
`sizes[i]` past the end of the table is `undefined`, which string-concatenation
renders literally. -/

def unitNames : List Str := [("Bytes").data, ("KB").data, ("MB").data, ("GB").data]

/-- Floor logarithm base `b`; the fuel bounds the division count and the
callers supply `n` itself, which is always enough. -/
def natLogAux (b : Nat) : Nat → Nat → Nat
  | 0, _ => 0
  | f + 1, n => if n < b then 0 else 1 + natLogAux b f (n / b)

/-- `Math.floor(Math.log(n) / Math.log(1024))` for positive `n`. -/
def natLog1024 (n : Nat) : Nat := natLogAux 1024 n n

/-- Renders a hundredths count the way `parseFloat(x.toFixed(2))` prints:
at most two fractional digits, trailing zeros removed. -/
def renderHundredths (n : Nat) : Str :=
  let ip := natToDigits (n / 100)
  let fr := n % 100
  if fr = 0 then ip
  else if fr % 10 = 0 then ip ++ ('.' :: [digitChar (fr / 10)])
  else ip ++ ('.' :: digitChar (fr / 10) :: [digitChar (fr % 10)])

def formatBytes (bytes : Nat) : Str :=
  if bytes = 0 then ("0 Bytes").data
  else
    let i := natLog1024 bytes
    let p := 1024 ^ i
    let n := (200 * bytes + p) / (2 * p)
    renderHundredths n ++ (' ' :: unitNames.getD i (("undefined").data))

/-! ## ErrorInfo -/

/-- The `type` tags of ErrorInfo; `syn` embeds the source's tag for parse
failures, the word for which cannot be a Lean identifier. -/
inductive ErrType where
  | syn
  | validation
  | size
  | unknown
deriving DecidableEq, Repr

/-- The spec's error taxonomy and its correspondence to the code's tags. -/
inductive ErrCategory where
  | SyntaxError
  | Empty
  | SizeExceeded
  | Unknown
deriving DecidableEq, Repr

def ErrType.category : ErrType → ErrCategory
  | .syn => .SyntaxError
  | .validation => .Empty
  | .size => .SizeExceeded
  | .unknown => .Unknown

structure ErrorInfo where
  message : Str
  type : ErrType
  position : Nat
  line : Option Nat
  column : Option Nat
  suggestion : Option Str
deriving DecidableEq, Repr

/-- The ErrorInfo constructor: `message || 'Unknown error'`, a validated type
tag, `Math.max(0, position)`, and unset line/column/suggestion. -/
def ErrorInfo.mk0 (message : Str) (t : ErrType) (position : Nat) : ErrorInfo :=
  { message := if message = [] then ("Unknown error").data else message
    type := t
    position := position
    line := none
    column := none
    suggestion := none }

/-- `_generateSuggestion(message, type)`. -/
def ErrorInfo.generateSuggestion (message : Str) (t : ErrType) : Option Str :=
  let lower := toLowerStr message
  if t = .syn then
    if containsSub (("unexpected token").data) lower then
      some (("Check for missing commas, brackets, or quotes").data)
    else if containsSub (("unexpected end").data) lower then
      some (("Check for missing closing brackets or quotes").data)
    else if containsSub (("unexpected string").data) lower then
      some (("Check for unescaped quotes or special characters").data)
    else
      some (("Check JSON syntax for common errors like missing commas or brackets").data)
  else if t = .validation then
    some (("Ensure the JSON structure is valid and complete").data)
  else if t = .size then
    some (("Try reducing the file size or breaking it into smaller parts").data)
  else none

/-- The loop body of `_calculateLineColumn`: each newline increments the line
and resets the column to 1, every other character increments the column. -/
def calcLCAux : Str → Nat → Nat → Nat × Nat
  | [], line, col => (line, col)
  | c :: cs, line, col =>
      if c = '\n' then calcLCAux cs (line + 1) 1 else calcLCAux cs line (col + 1)

/-- `_calculateLineColumn(content, position)`: scans the first
`min(position, content.length)` characters starting from (1, 1). -/
def ErrorInfo.calculateLineColumn (content : Str) (position : Nat) : Nat × Nat :=
  calcLCAux (content.take (min position content.length)) 1 1

/-- One attempt of the `/position (\d+)/i` pattern at the head of `s`:
the nine characters of the phrase, case-insensitively, followed by at least
one digit; the digits are read maximally. -/
def positionAt (s : Str) : Option Nat :=
  if toLowerStr (s.take 9) = ("position ").data then
    match takeDigits (s.drop 9) with
    | ([], _) => none
    | (ds, _) => some (digitsToNat ds)
  else none

/-- Leftmost match of the `/position (\d+)/i` pattern, as `String.match`. -/
def findPosition : Str → Option Nat
  | [] => none
  | c :: cs =>
      match positionAt (c :: cs) with
      | some n => some n
      | none => findPosition cs

/-- `ErrorInfo.fromJSONError(error, content)` with `error.message` passed
directly. -/
def ErrorInfo.fromJSONError (message content : Str) : ErrorInfo :=
  let e := ErrorInfo.mk0 message .syn 0
  let e := match findPosition message with
    | some n => { e with position := n }
    | none => e
  let e :=
    if content ≠ [] ∧ 0 < e.position then
      let lc := ErrorInfo.calculateLineColumn content e.position
      { e with line := some lc.1, column := some lc.2 }
    else e
  { e with suggestion := ErrorInfo.generateSuggestion message .syn }

/-- `ErrorInfo.fromValidationError(message, position)`. -/
def ErrorInfo.fromValidationError (message : Str) (position : Nat) : ErrorInfo :=
  let e := ErrorInfo.mk0 message .validation position
  { e with suggestion := ErrorInfo.generateSuggestion message .validation }

/-- `ErrorInfo.fromSizeError(actualSize, maxSize)`.  A negative ceiling would
render as NaN in JS; the claims never reach that message and the model uses
`Int.toNat`. -/
def ErrorInfo.fromSizeError (actualSize : Nat) (maxSize : Int) : ErrorInfo :=
  let msg := ("File size (").data ++ formatBytes actualSize
      ++ (") exceeds limit (").data ++ formatBytes maxSize.toNat ++ (")").data
  let e := ErrorInfo.mk0 msg .size 0
  { e with suggestion := some (("Try reducing the file size or breaking it into smaller parts").data) }

/-! ## The host JSON primitives

Modelled from the spec: the repository delegates to the host's `JSON.parse`
and `JSON.stringify` (RFC 8259 / ECMA-262), which are not part of the source.
JSON numbers are modelled on their integer fragment: the host's doubles and
their shortest-representation printing are floating point and outside the
shallow embedding.  Objects keep their members as an ordered association list
(duplicate keys, which RFC 8259 leaves open, are kept in order). -/

mutual
inductive JVal where
  | null
  | bool (b : Bool)
  | num (i : Int)
  | str (s : Str)
  | arr (elems : JArr)
  | obj (members : JObj)
inductive JArr where
  | nil
  | cons (hd : JVal) (tl : JArr)
inductive JObj where
  | nil
  | cons (key : Str) (value : JVal) (tl : JObj)
end

deriving instance DecidableEq for JVal
deriving instance Repr for JVal

def hexDigitChar (n : Nat) : Char := if n < 10 then digitChar n else Char.ofNat (87 + n)

/-- `QuoteJSONString` escaping of one character. -/
def escChar (c : Char) : Str :=
  if c = '"' then ['\\', '"']
  else if c = '\\' then ['\\', '\\']
  else if c.toNat = 8 then ['\\', 'b']
  else if c.toNat = 12 then ['\\', 'f']
  else if c = '\n' then ['\\', 'n']
  else if c.toNat = 13 then ['\\', 'r']
  else if c.toNat = 9 then ['\\', 't']
  else if c.toNat < 32 then
    ['\\', 'u', '0', '0', hexDigitChar (c.toNat / 16), hexDigitChar (c.toNat % 16)]
  else [c]

def escBody : Str → Str
  | [] => []
  | c :: cs => escChar c ++ escBody cs

def quoteStr (s : Str) : Str := '"' :: escBody s ++ ['"']

/-- The indent string `JSON.stringify` builds from a numeric `space`. -/
def gapOf (space : Int) : Str := List.replicate (min 10 (max 0 space)).toNat ' '

mutual
/-- `JSON.stringify(v, null, space)` body: `gap` is the per-level indent
string, `ind` the accumulated indentation of the enclosing level. -/
def strVal (gap ind : Str) : JVal → Str
  | .null => ("null").data
  | .bool true => ("true").data
  | .bool false => ("false").data
  | .num i => intToDigits i
  | .str s => quoteStr s
  | .arr .nil => ['[', ']']
  | .arr (.cons x xs) =>
      '[' :: ((if gap = [] then [] else '\n' :: (ind ++ gap))
        ++ strVal gap (ind ++ gap) x ++ strATail gap ind xs)
  | .obj .nil => ['{', '}']
  | .obj (.cons key v ms) =>
      '{' :: ((if gap = [] then [] else '\n' :: (ind ++ gap))
        ++ quoteStr key ++ ':' :: ((if gap = [] then [] else [' '])
        ++ strVal gap (ind ++ gap) v ++ strOTail gap ind ms))
def strATail (gap ind : Str) : JArr → Str
  | .nil => if gap = [] then [']'] else '\n' :: (ind ++ [']'])
  | .cons y ys =>
      ',' :: ((if gap = [] then [] else '\n' :: (ind ++ gap))
        ++ strVal gap (ind ++ gap) y ++ strATail gap ind ys)
def strOTail (gap ind : Str) : JObj → Str
  | .nil => if gap = [] then ['}'] else '\n' :: (ind ++ ['}'])
  | .cons key v ms =>
      ',' :: ((if gap = [] then [] else '\n' :: (ind ++ gap))
        ++ quoteStr key ++ ':' :: ((if gap = [] then [] else [' '])
        ++ strVal gap (ind ++ gap) v ++ strOTail gap ind ms))
end

/-- JSON insignificant whitespace. -/
def isJsonWs (c : Char) : Bool := c == ' ' || c == '\t' || c == '\n' || c == '\r'

def skipJsonWs (s : Str) : Str := s.dropWhile isJsonWs

def hexVal (c : Char) : Option Nat :=
  if c.isDigit then some (digitVal c)
  else if 'a' ≤ c ∧ c ≤ 'f' then some (c.toNat - 87)
  else if 'A' ≤ c ∧ c ≤ 'F' then some (c.toNat - 55)
  else none

def consHead (c : Char) : Option (Str × Str) → Option (Str × Str)
  | none => none
  | some (s, r) => some (c :: s, r)

/-- Body of a JSON string after the opening quote; returns the decoded
characters and the text after the closing quote.  Lone surrogate escapes,
which a Lean scalar cannot hold, are rejected. -/
def parseStrBody : Str → Option (Str × Str)
  | [] => none
  | c :: r =>
      if c = '"' then some ([], r)
      else if c = '\\' then
        match r with
        | [] => none
        | e :: r1 =>
            if e = '"' then consHead '"' (parseStrBody r1)
            else if e = '\\' then consHead '\\' (parseStrBody r1)
            else if e = '/' then consHead '/' (parseStrBody r1)
            else if e = 'b' then consHead (Char.ofNat 8) (parseStrBody r1)
            else if e = 'f' then consHead (Char.ofNat 12) (parseStrBody r1)
            else if e = 'n' then consHead '\n' (parseStrBody r1)
            else if e = 'r' then consHead (Char.ofNat 13) (parseStrBody r1)
            else if e = 't' then consHead (Char.ofNat 9) (parseStrBody r1)
            else if e = 'u' then
              match r1 with
              | a :: b :: c2 :: d :: r2 =>
                  match hexVal a, hexVal b, hexVal c2, hexVal d with
                  | some ha, some hb, some hc, some hd =>
                      let code := ((ha * 16 + hb) * 16 + hc) * 16 + hd
                      if code < 55296 ∨ 57343 < code then
                        consHead (Char.ofNat code) (parseStrBody r2)
                      else none
                  | _, _, _, _ => none
              | _ => none
            else none
      else if c.toNat < 32 then none
      else consHead c (parseStrBody r)

inductive PMode where
  | val
  | atail
  | otail

inductive PRes where
  | val (v : JVal)
  | arrTail (xs : JArr)
  | objTail (ms : JObj)

/-- Recursive-descent JSON parser; `.val` parses one value after optional
whitespace, `.atail`/`.otail` the remainder of an array/object after one
element.  The fuel only bounds recursion depth; `parseJSONFn` supplies enough
that it never runs out. -/
def parseAux : Nat → PMode → Str → Option (PRes × Str)
  | 0, _, _ => none
  | f + 1, .val, s =>
    match skipJsonWs s with
    | [] => none
    | c :: r =>
      if c = '{' then
        match skipJsonWs r with
        | [] => none
        | c1 :: r1 =>
          if c1 = '}' then some (.val (.obj .nil), r1)
          else if c1 = '"' then
            match parseStrBody r1 with
            | none => none
            | some (key, r2) =>
              match skipJsonWs r2 with
              | [] => none
              | c3 :: r3 =>
                if c3 = ':' then
                  match parseAux f .val r3 with
                  | some (.val v, r4) =>
                      (match parseAux f .otail r4 with
                       | some (.objTail ms, r5) =>
                           some (.val (.obj (.cons key v ms)), r5)
                       | _ => none)
                  | _ => none
                else none
          else none
      else if c = '[' then
        match skipJsonWs r with
        | [] => none
        | c1 :: r1 =>
          if c1 = ']' then some (.val (.arr .nil), r1)
          else
            match parseAux f .val r with
            | some (.val x, r2) =>
                (match parseAux f .atail r2 with
                 | some (.arrTail xs, r3) => some (.val (.arr (.cons x xs)), r3)
                 | _ => none)
            | _ => none
      else if c = '"' then
        match parseStrBody r with
        | some (cs, r1) => some (.val (.str cs), r1)
        | none => none
      else if c = 't' then
        match r with
        | c1 :: c2 :: c3 :: r3 =>
            if c1 = 'r' ∧ c2 = 'u' ∧ c3 = 'e' then some (.val (.bool true), r3)
            else none
        | _ => none
      else if c = 'f' then
        match r with
        | c1 :: c2 :: c3 :: c4 :: r4 =>
            if c1 = 'a' ∧ c2 = 'l' ∧ c3 = 's' ∧ c4 = 'e' then
              some (.val (.bool false), r4)
            else none
        | _ => none
      else if c = 'n' then
        match r with
        | c1 :: c2 :: c3 :: r3 =>
            if c1 = 'u' ∧ c2 = 'l' ∧ c3 = 'l' then some (.val .null, r3)
            else none
        | _ => none
      else if c = '-' then
        match takeDigits r with
        | ([], _) => none
        | (ds, r1) => some (.val (.num (-(digitsToNat ds : Int))), r1)
      else if isDigitC c then
        some (.val (.num ((digitsToNat (takeDigits (c :: r)).1 : Int))),
          (takeDigits (c :: r)).2)
      else none
  | f + 1, .atail, s =>
    match skipJsonWs s with
    | [] => none
    | c :: r =>
      if c = ']' then some (.arrTail .nil, r)
      else if c = ',' then
        match parseAux f .val r with
        | some (.val x, r1) =>
            (match parseAux f .atail r1 with
             | some (.arrTail xs, r2) => some (.arrTail (.cons x xs), r2)
             | _ => none)
        | _ => none
      else none
  | f + 1, .otail, s =>
    match skipJsonWs s with
    | [] => none
    | c :: r =>
      if c = '}' then some (.objTail .nil, r)
      else if c = ',' then
        match skipJsonWs r with
        | [] => none
        | c1 :: r1 =>
          if c1 = '"' then
            match parseStrBody r1 with
            | none => none
            | some (key, r2) =>
              match skipJsonWs r2 with
              | [] => none
              | c3 :: r3 =>
                if c3 = ':' then
                  match parseAux f .val r3 with
                  | some (.val v, r4) =>
                      (match parseAux f .otail r4 with
                       | some (.objTail ms, r5) =>
                           some (.objTail (.cons key v ms), r5)
                       | _ => none)
                  | _ => none
                else none
          else none
      else none

/-- `JSON.parse`: one value, then nothing but whitespace.  The host's failure
prose is engine-specific; the model raises fixed representative messages. -/
def parseJSONFn (s : Str) : Except Str JVal :=
  match parseAux (s.length + 1) .val s with
  | some (.val v, rest) =>
      if skipJsonWs rest = [] then .ok v
      else .error (("Unexpected token in JSON").data)
  | _ => .error (("Unexpected end of JSON input").data)

/-! ## JSONValidator -/

abbrev ParseFn := Str → Except Str JVal

/-- The monotone host clock behind `performance.now()`, indexed by read count. -/
abbrev Clock := ℕ → ℚ

/-- JS `x || d` for a numeric option: `undefined` and `0` fall back. -/
def jsOr (x : Option Int) (d : Int) : Int :=
  match x with
  | none => d
  | some v => if v = 0 then d else v

def defaultMaxSize : Int := 1048576

structure VOptions where
  maxSize : Option Int
deriving DecidableEq, Repr

structure ValidationResult where
  isValid : Bool
  error : Option Str
  errorInfo : Option ErrorInfo
  size : Nat
  sizeValid : Bool
  parseTime : ℚ
  parsedData : Option JVal
deriving DecidableEq, Repr

def sizeErrMsg (size : Nat) (maxSize : Int) : Str :=
  ("Content size (").data ++ formatBytes size ++ (") exceeds limit (").data
    ++ formatBytes maxSize.toNat ++ (")").data

/-- `JSONValidator.validateJSON(content, options)`; `k` is the index of the
next `performance.now()` read. -/
def validateJSON (p : ParseFn) (clk : Clock) (k : ℕ) (content : Str)
    (options : VOptions) : ValidationResult × ℕ :=
  if content = [] then
    ({ isValid := false
       error := some (("No content provided").data)
       errorInfo := some (ErrorInfo.fromValidationError (("No content provided").data) 0)
       size := 0, sizeValid := true, parseTime := 0, parsedData := none }, k)
  else
    let size := blobSize content
    let maxSize := jsOr options.maxSize defaultMaxSize
    let sizeValid := decide ((size : Int) ≤ maxSize)
    if sizeValid = false then
      ({ isValid := false
         error := some (sizeErrMsg size maxSize)
         errorInfo := some (ErrorInfo.fromSizeError size maxSize)
         size := size, sizeValid := sizeValid, parseTime := 0, parsedData := none }, k)
    else if jsTrim content = [] then
      ({ isValid := false
         error := some (("Content is empty").data)
         errorInfo := some (ErrorInfo.fromValidationError (("Content is empty").data) 0)
         size := size, sizeValid := sizeValid, parseTime := 0, parsedData := none }, k)
    else
      match p content with
      | .ok v =>
          ({ isValid := true, error := none, errorInfo := none
             size := size, sizeValid := sizeValid
             parseTime := clk (k + 1) - clk k, parsedData := some v }, k + 2)
      | .error m =>
          ({ isValid := false, error := some m
             errorInfo := some (ErrorInfo.fromJSONError m content)
             size := size, sizeValid := sizeValid
             parseTime := clk (k + 1) - clk k, parsedData := none }, k + 2)

structure SizeResult where
  isValid : Bool
  size : Nat
  maxSize : Int
  error : Option Str
deriving DecidableEq, Repr

/-- `JSONValidator.validateSize(content, maxSize)` (the explicit-argument
path; unlike `validateJSON` it applies no `||` fallback to the ceiling). -/
def validateSize (content : Str) (maxSize : Int) : SizeResult :=
  let size := blobSize content
  let ok := decide ((size : Int) ≤ maxSize)
  { isValid := ok, size := size, maxSize := maxSize
    error := if ok then none else some (sizeErrMsg size maxSize) }

/-! ## JSONFormatter -/

def defaultIndentation : Int := 2

def maxIndentation : Int := 8

/-- `JSONFormatter._validateIndentation`. -/
def validateIndentation (indentation : Int) : Int :=
  if 1 ≤ indentation ∧ indentation ≤ maxIndentation then indentation
  else defaultIndentation

structure FmtOptions where
  indentation : Option Int
deriving DecidableEq, Repr

structure FormatResult where
  success : Bool
  formatted : Str
  error : Option Str
  formatTime : ℚ
  errorInfo : Option ErrorInfo
deriving DecidableEq, Repr

structure MinifyResult where
  success : Bool
  minified : Str
  error : Option Str
  minifyTime : ℚ
deriving DecidableEq, Repr

/-- `JSONFormatter.formatJSON(content, options)`.  The source never assigns an
`errorInfo` property on its result object, so that field is always `none`. -/
def formatJSON (p : ParseFn) (clk : Clock) (k : ℕ) (content : Str)
    (options : FmtOptions) : FormatResult × ℕ :=
  if content = [] then
    ({ success := false, formatted := [], error := some (("No content provided").data)
       formatTime := 0, errorInfo := none }, k)
  else if jsTrim content = [] then
    ({ success := false, formatted := [], error := some (("Content is empty").data)
       formatTime := 0, errorInfo := none }, k)
  else
    match p content with
    | .ok v =>
        let indentation := validateIndentation (jsOr options.indentation defaultIndentation)
        ({ success := true, formatted := strVal (gapOf indentation) [] v, error := none
           formatTime := clk (k + 1) - clk k, errorInfo := none }, k + 2)
    | .error m =>
        ({ success := false, formatted := []
           error := some (("JSON parsing failed: ").data ++ m)
           formatTime := clk (k + 1) - clk k, errorInfo := none }, k + 2)

/-- `JSONFormatter.minifyJSON(content)`. -/
def minifyJSON (p : ParseFn) (clk : Clock) (k : ℕ) (content : Str) :
    MinifyResult × ℕ :=
  if content = [] then
    ({ success := false, minified := [], error := some (("No content provided").data)
       minifyTime := 0 }, k)
  else if jsTrim content = [] then
    ({ success := false, minified := [], error := some (("Content is empty").data)
       minifyTime := 0 }, k)
  else
    match p content with
    | .ok v =>
        ({ success := true, minified := strVal [] [] v, error := none
           minifyTime := clk (k + 1) - clk k }, k + 2)
    | .error m =>
        ({ success := false, minified := []
           error := some (("JSON parsing failed: ").data ++ m)
           minifyTime := clk (k + 1) - clk k }, k + 2)

/-! ## JSONProcessor -/

structure POptions where
  maxSize : Option Int
  indentation : Option Int
deriving DecidableEq, Repr

structure PStats where
  originalSize : Nat
  formattedSize : Nat
  minifiedSize : Nat
  compressionRatio : ℚ
  expansionRatio : ℚ
  lineCount : Nat
  characterCount : Nat
deriving DecidableEq, Repr

/-- `content.split('\n').length`. -/
def countLines (s : Str) : Nat := (s.filter (fun c => c = '\n')).length + 1

/-- `JSONProcessor._calculateStats(original, formatted, minified)`; the JS
double divisions are exact here (rationals). -/
def calculateStats (original formatted minified : Str) : PStats :=
  let originalSize := blobSize original
  let formattedSize := blobSize formatted
  let minifiedSize := blobSize minified
  { originalSize := originalSize, formattedSize := formattedSize
    minifiedSize := minifiedSize
    compressionRatio := (1 - (minifiedSize : ℚ) / (originalSize : ℚ)) * 100
    expansionRatio := ((formattedSize : ℚ) / (originalSize : ℚ) - 1) * 100
    lineCount := countLines formatted
    characterCount := jsLength original }

structure PResult where
  success : Bool
  isValid : Bool
  formatted : Str
  minified : Str
  error : Option Str
  errorInfo : Option ErrorInfo
  processingTime : ℚ
  stats : Option PStats
deriving DecidableEq, Repr

/-- `JSONProcessor.processJSON(content, options)`: `startTime` is clock read
`k`; the validator's parse timing, both formatter timings and the final
`endTime` follow in source order. -/
def processJSON (p : ParseFn) (clk : Clock) (k : ℕ) (content : Str)
    (options : POptions) : PResult × ℕ :=
  let vr := validateJSON p clk (k + 1) content { maxSize := options.maxSize }
  if vr.1.isValid = false then
    ({ success := false, isValid := vr.1.isValid, formatted := [], minified := []
       error := vr.1.error, errorInfo := vr.1.errorInfo
       processingTime := clk vr.2 - clk k, stats := none }, vr.2 + 1)
  else
    let fr := formatJSON p clk vr.2 content
      { indentation := some (jsOr options.indentation 2) }
    if fr.1.success = false then
      ({ success := false, isValid := vr.1.isValid, formatted := [], minified := []
         error := fr.1.error, errorInfo := vr.1.errorInfo
         processingTime := clk fr.2 - clk k, stats := none }, fr.2 + 1)
    else
      let mr := minifyJSON p clk fr.2 content
      if mr.1.success = false then
        ({ success := false, isValid := vr.1.isValid, formatted := [], minified := []
           error := mr.1.error, errorInfo := vr.1.errorInfo
           processingTime := clk mr.2 - clk k, stats := none }, mr.2 + 1)
      else
        ({ success := true, isValid := vr.1.isValid
           formatted := fr.1.formatted, minified := mr.1.minified
           error := vr.1.error, errorInfo := vr.1.errorInfo
           processingTime := clk mr.2 - clk k
           stats := some (calculateStats content fr.1.formatted mr.1.minified) }, mr.2 + 1)

/-! ## Auxiliary definitions for the verification -/

mutual
/-- Recursion depth the parser needs on serializer output. -/
def fuelV : JVal → Nat
  | .null => 1
  | .bool _ => 1
  | .num _ => 1
  | .str _ => 1
  | .arr .nil => 1
  | .arr (.cons x xs) => 1 + max (fuelV x) (fuelA xs)
  | .obj .nil => 1
  | .obj (.cons _ v ms) => 1 + max (fuelV v) (fuelO ms)
def fuelA : JArr → Nat
  | .nil => 1
  | .cons x xs => 1 + max (fuelV x) (fuelA xs)
def fuelO : JObj → Nat
  | .nil => 1
  | .cons _ v ms => 1 + max (fuelV v) (fuelO ms)
end

/-- The text does not begin with a decimal digit (so a number token before it
cannot absorb it). -/
def noDigitHead : Str → Prop
  | [] => True
  | c :: _ => isDigitC c = false

def SpacesOnly (s : Str) : Prop := ∀ c ∈ s, c = ' '

/-- Characters that can open a JSON value token. -/
def IsTokenHead (c : Char) : Prop :=
  c = '{' ∨ c = '[' ∨ c = '"' ∨ c = 't' ∨ c = 'f' ∨ c = 'n' ∨ c = '-' ∨
    isDigitC c = true

/-- The numeric part of a formatted byte string (everything before the
space). -/
def numericPart (s : Str) : Str := s.takeWhile (fun c => c ≠ ' ')

/-- Number of digits printed after the decimal point of the numeric part. -/
def fracDigitCount (s : Str) : Nat :=
  (((numericPart s).dropWhile (fun c => c ≠ '.')).drop 1).length

/-- A concrete strictly monotone clock used to instantiate theorems. -/
def clkId : Clock := fun n => (n : ℚ)

/-- A degenerate parse primitive used to witness parse-independence. -/
def pFail : ParseFn := fun _ => .error []

/-! ## Basic lemmas -/

theorem utf8Len_pos (c : Char) : 1 ≤ utf8Len c := by
  unfold utf8Len
  split
  · omega
  · split
    · omega
    · split <;> omega

theorem blobSize_pos {t : Str} (h : t ≠ []) : 0 < blobSize t := by
  cases t with
  | nil => exact absurd rfl h
  | cons c cs =>
      have := utf8Len_pos c
      simp [blobSize]
      omega

theorem jsTrim_eq_nil_iff (s : Str) : jsTrim s = [] ↔ ∀ c ∈ s, isJSWs c = true := by
  unfold jsTrim
  rw [List.reverse_eq_nil_iff, List.dropWhile_eq_nil_iff]
  constructor
  · intro h c hc
    by_cases hw : isJSWs c = true
    · exact hw
    · exfalso
      have hmem : c ∈ s.dropWhile isJSWs := by
        have hsplit := List.takeWhile_append_dropWhile (p := isJSWs) (l := s)
        rw [← hsplit] at hc
        rcases List.mem_append.mp hc with h1 | h1
        · exact absurd (List.mem_takeWhile_imp h1) hw
        · exact h1
      exact hw (h c (List.mem_reverse.mpr hmem))
  · intro h c hc
    exact h c ((List.dropWhile_sublist isJSWs).subset (List.mem_reverse.mp hc))

theorem jsTrim_cons_ne_nil {c : Char} {t : Str} (h : isJSWs c = false) :
    jsTrim (c :: t) ≠ [] := by
  intro hnil
  have := (jsTrim_eq_nil_iff (c :: t)).mp hnil c (by simp)
  rw [h] at this
  exact Bool.false_ne_true this

/-! ## C8: the suggestion rule table -/

theorem fromJSONError_suggestion (msg content : Str) :
    (ErrorInfo.fromJSONError msg content).suggestion
      = ErrorInfo.generateSuggestion msg .syn := by
  unfold ErrorInfo.fromJSONError
  cases findPosition msg
  all_goals dsimp only []

theorem fromJSONError_type (msg content : Str) :
    (ErrorInfo.fromJSONError msg content).type = .syn := by
  unfold ErrorInfo.fromJSONError
  cases findPosition msg
  all_goals dsimp only []
  all_goals split
  all_goals rfl

/-- Claim C8: for every raw parse-failure message, the diagnostic's suggestion
is chosen by case-insensitive substring match in fixed order: "unexpected
token" yields the missing-commas hint, then "unexpected end" the closing-
brackets hint, then "unexpected string" the unescaped-quotes hint, and any
other syntax failure yields the generic syntax hint. -/
theorem C8_suggestion_table (msg content : Str) :
    ((containsSub (("unexpected token").data) (toLowerStr msg) = true →
        (ErrorInfo.fromJSONError msg content).suggestion
          = some (("Check for missing commas, brackets, or quotes").data)) ∧
     (containsSub (("unexpected token").data) (toLowerStr msg) = false →
      containsSub (("unexpected end").data) (toLowerStr msg) = true →
        (ErrorInfo.fromJSONError msg content).suggestion
          = some (("Check for missing closing brackets or quotes").data)) ∧
     (containsSub (("unexpected token").data) (toLowerStr msg) = false →
      containsSub (("unexpected end").data) (toLowerStr msg) = false →
      containsSub (("unexpected string").data) (toLowerStr msg) = true →
        (ErrorInfo.fromJSONError msg content).suggestion
          = some (("Check for unescaped quotes or special characters").data)) ∧
     (containsSub (("unexpected token").data) (toLowerStr msg) = false →
      containsSub (("unexpected end").data) (toLowerStr msg) = false →
      containsSub (("unexpected string").data) (toLowerStr msg) = false →
        (ErrorInfo.fromJSONError msg content).suggestion
          = some (("Check JSON syntax for common errors like missing commas or brackets").data))) := by
  refine ⟨?_, ?_, ?_, ?_⟩
  · intro h1
    rw [fromJSONError_suggestion]
    simp [ErrorInfo.generateSuggestion, h1]
  · intro h1 h2
    rw [fromJSONError_suggestion]
    simp [ErrorInfo.generateSuggestion, h1, h2]
  · intro h1 h2 h3
    rw [fromJSONError_suggestion]
    simp [ErrorInfo.generateSuggestion, h1, h2, h3]
  · intro h1 h2 h3
    rw [fromJSONError_suggestion]
    simp [ErrorInfo.generateSuggestion, h1, h2, h3]

theorem C8_suggestion_table_witness :
    (ErrorInfo.fromJSONError (("Unexpected token x in JSON at position 17").data)
        []).suggestion
      = some (("Check for missing commas, brackets, or quotes").data) :=
  (C8_suggestion_table (("Unexpected token x in JSON at position 17").data) []).1
    (by rfl)

/-! ## C9: the human-readable byte formatter -/

theorem natLogAux_spec (b : Nat) (hb : 2 ≤ b) :
    ∀ f n, 0 < n → n ≤ f →
      b ^ natLogAux b f n ≤ n ∧ n < b ^ (natLogAux b f n + 1) := by
  intro f
  induction f with
  | zero => intro n hn hf; omega
  | succ f ih =>
      intro n hn hf
      by_cases h : n < b
      · simp [natLogAux, h]
        omega
      · push_neg at h
        have hdivpos : 0 < n / b := Nat.div_pos h (by omega)
        have hdivlt : n / b < n := Nat.div_lt_self hn (by omega)
        have hdivle : n / b ≤ f := by omega
        have := ih (n / b) hdivpos hdivle
        simp only [natLogAux, if_neg (by omega : ¬ n < b)]
        constructor
        · have h1 : b ^ natLogAux b f (n / b) * b ≤ n / b * b := by
            exact Nat.mul_le_mul_right b this.1
          have h2 : n / b * b ≤ n := Nat.div_mul_le_self n b
          calc b ^ (1 + natLogAux b f (n / b))
              = b ^ natLogAux b f (n / b) * b := by rw [Nat.add_comm]; rw [Nat.pow_succ]
            _ ≤ n / b * b := h1
            _ ≤ n := h2
        · have h1 : n / b + 1 ≤ b ^ (natLogAux b f (n / b) + 1) := this.2
          have h2 : n < (n / b + 1) * b := by
            have hdm := Nat.div_add_mod n b
            have hmod : n % b < b := Nat.mod_lt _ (by omega)
            have hexp : (n / b + 1) * b = b * (n / b) + b := by ring
            omega
          calc n < (n / b + 1) * b := h2
            _ ≤ b ^ (natLogAux b f (n / b) + 1) * b := Nat.mul_le_mul_right b h1
            _ = b ^ (1 + natLogAux b f (n / b) + 1) := by
                rw [Nat.pow_succ]
                ring_nf
  -- spec of the fuelled floor logarithm

theorem natLog1024_spec {n : Nat} (hn : 0 < n) :
    1024 ^ natLog1024 n ≤ n ∧ n < 1024 ^ (natLog1024 n + 1) :=
  natLogAux_spec 1024 (by norm_num) n n hn le_rfl

theorem digitChar_isDigitC {m : Nat} (h : m < 10) : isDigitC (digitChar m) = true := by
  interval_cases m <;> decide

theorem natToDigitsAux_all_digits :
    ∀ f n acc, (∀ c ∈ acc, isDigitC c = true) →
      ∀ c ∈ natToDigitsAux f n acc, isDigitC c = true := by
  intro f
  induction f with
  | zero =>
      intro n acc hacc c hc
      simp only [natToDigitsAux] at hc
      rcases List.mem_cons.mp hc with hc | hc
      · subst hc; exact digitChar_isDigitC (Nat.mod_lt _ (by omega))
      · exact hacc c hc
  | succ f ih =>
      intro n acc hacc c hc
      by_cases h : n < 10
      · simp only [natToDigitsAux, if_pos h] at hc
        rcases List.mem_cons.mp hc with hc | hc
        · subst hc; exact digitChar_isDigitC h
        · exact hacc c hc
      · simp only [natToDigitsAux, if_neg h] at hc
        refine ih (n / 10) _ ?_ c hc
        intro x hx
        rcases List.mem_cons.mp hx with hx | hx
        · subst hx; exact digitChar_isDigitC (Nat.mod_lt _ (by omega))
        · exact hacc x hx

theorem natToDigits_all_digits (n : Nat) :
    ∀ c ∈ natToDigits n, isDigitC c = true :=
  natToDigitsAux_all_digits n n [] (by intro c hc; cases hc)

theorem isDigitC_ne_space {c : Char} (h : isDigitC c = true) : c ≠ ' ' := by
  intro e; subst e; exact absurd h (by decide)

theorem isDigitC_ne_dot {c : Char} (h : isDigitC c = true) : c ≠ '.' := by
  intro e; subst e; exact absurd h (by decide)

theorem takeWhile_append_all {p : Char → Bool} {l₁ l₂ : Str}
    (h : ∀ x ∈ l₁, p x = true) :
    (l₁ ++ l₂).takeWhile p = l₁ ++ l₂.takeWhile p := by
  induction l₁ with
  | nil => simp
  | cons a t ih =>
      have ha : p a = true := h a (by simp)
      simp only [List.cons_append, List.takeWhile_cons, ha, if_true]
      rw [ih (by intro x hx; exact h x (by simp [hx]))]

theorem dropWhile_append_all {p : Char → Bool} {l₁ l₂ : Str}
    (h : ∀ x ∈ l₁, p x = true) :
    (l₁ ++ l₂).dropWhile p = l₂.dropWhile p := by
  induction l₁ with
  | nil => simp
  | cons a t ih =>
      have ha : p a = true := h a (by simp)
      simp only [List.cons_append, List.dropWhile_cons, ha, if_true]
      exact ih (by intro x hx; exact h x (by simp [hx]))

theorem takeWhile_append_not_all {p : Char → Bool} {l₁ l₂ : Str}
    (h : ¬ ∀ x ∈ l₁, p x = true) :
    (l₁ ++ l₂).takeWhile p = l₁.takeWhile p := by
  induction l₁ with
  | nil => exact absurd (by intro x hx; cases hx) h
  | cons a t ih =>
      rw [List.forall_mem_cons] at h
      by_cases ha : p a = true
      · simp only [List.cons_append, List.takeWhile_cons, ha, if_true]
        rw [ih (by intro hall; exact h ⟨ha, hall⟩)]
      · rw [Bool.not_eq_true] at ha
        simp only [List.cons_append, List.takeWhile_cons, ha]
        simp

theorem digitChar_ne_zero {m : Nat} (h1 : m < 10) (h2 : m ≠ 0) :
    digitChar m ≠ '0' := by
  interval_cases m
  · exact absurd rfl h2
  all_goals decide

theorem renderHundredths_chars (n : Nat) :
    ∀ c ∈ renderHundredths n, isDigitC c = true ∨ c = '.' := by
  intro c hc
  unfold renderHundredths at hc
  dsimp only [] at hc
  split at hc
  · exact Or.inl (natToDigits_all_digits _ c hc)
  · split at hc
    · rcases List.mem_append.mp hc with hc | hc
      · exact Or.inl (natToDigits_all_digits _ c hc)
      · rcases List.mem_cons.mp hc with hc | hc
        · exact Or.inr hc
        · rcases List.mem_cons.mp hc with hc | hc
          · subst hc
            exact Or.inl (digitChar_isDigitC (Nat.div_lt_of_lt_mul (by
              have : n % 100 < 100 := Nat.mod_lt _ (by omega)
              omega)))
          · cases hc
    · rcases List.mem_append.mp hc with hc | hc
      · exact Or.inl (natToDigits_all_digits _ c hc)
      · rcases List.mem_cons.mp hc with hc | hc
        · exact Or.inr hc
        · rcases List.mem_cons.mp hc with hc | hc
          · subst hc
            exact Or.inl (digitChar_isDigitC (Nat.div_lt_of_lt_mul (by
              have : n % 100 < 100 := Nat.mod_lt _ (by omega)
              omega)))
          · rcases List.mem_cons.mp hc with hc | hc
            · subst hc
              exact Or.inl (digitChar_isDigitC (Nat.mod_lt _ (by omega)))
            · cases hc

theorem renderHundredths_ne_space (n : Nat) :
    ∀ c ∈ renderHundredths n, (fun c => decide (c ≠ ' ')) c = true := by
  intro c hc
  rcases renderHundredths_chars n c hc with h | h
  · simpa using isDigitC_ne_space h
  · subst h; decide

theorem renderHundredths_ne_dot_of_digits (n : Nat) :
    ∀ c ∈ natToDigits n, (fun c => decide (c ≠ '.')) c = true := by
  intro c hc
  simpa using isDigitC_ne_dot (natToDigits_all_digits n c hc)

theorem renderHundredths_fracCount (n : Nat) :
    (((renderHundredths n).dropWhile (fun c => decide (c ≠ '.'))).drop 1).length ≤ 2 := by
  unfold renderHundredths
  dsimp only []
  split
  · rw [List.dropWhile_eq_nil_iff.mpr (renderHundredths_ne_dot_of_digits _)]
    simp
  · split
    · rw [dropWhile_append_all (renderHundredths_ne_dot_of_digits _)]
      simp
    · rw [dropWhile_append_all (renderHundredths_ne_dot_of_digits _)]
      simp

theorem renderHundredths_last (n : Nat) (h : '.' ∈ renderHundredths n) :
    (renderHundredths n).getLast? ≠ some '0' := by
  have hfr : n % 100 < 100 := Nat.mod_lt _ (by omega)
  unfold renderHundredths at h ⊢
  dsimp only [] at h ⊢
  by_cases h0 : n % 100 = 0
  · rw [if_pos h0] at h
    exact absurd (natToDigits_all_digits _ '.' h) (by decide)
  · rw [if_neg h0]
    by_cases h10 : n % 100 % 10 = 0
    · rw [if_pos h10]
      rw [show natToDigits (n / 100) ++ ['.', digitChar (n % 100 / 10)]
            = (natToDigits (n / 100) ++ ['.']) ++ [digitChar (n % 100 / 10)] by simp]
      rw [List.getLast?_concat]
      intro he
      have he2 : digitChar (n % 100 / 10) = '0' := by injection he
      exact absurd he2 (digitChar_ne_zero (by omega) (by omega))
    · rw [if_neg h10]
      rw [show natToDigits (n / 100)
              ++ ['.', digitChar (n % 100 / 10), digitChar (n % 100 % 10)]
            = (natToDigits (n / 100) ++ ['.', digitChar (n % 100 / 10)])
              ++ [digitChar (n % 100 % 10)] by simp]
      rw [List.getLast?_concat]
      intro he
      have he2 : digitChar (n % 100 % 10) = '0' := by injection he
      exact absurd he2 (digitChar_ne_zero (by omega) h10)

/-- Claim C9 (counterexample): at 1024 bytes the code renders "1 KB" — zero
decimal places, not two — because `parseFloat` strips the trailing zeros of
`(1).toFixed(2)`. -/
theorem C9_counterexample :
    formatBytes 1024 = ("1 KB").data ∧ fracDigitCount (formatBytes 1024) = 0 :=
  ⟨rfl, rfl⟩

/-- Claim C9 (amended): the human-readable size string uses binary (1024)
units while the four-entry unit table lasts (b < 1024⁴); it is exactly
"0 Bytes" at zero; and the numeric part carries at most two decimal places,
with trailing fractional zeros stripped (so exactly two is not guaranteed). -/
theorem C9_format_bytes_amended :
    (formatBytes 0 = ("0 Bytes").data) ∧
    (∀ b : Nat, 0 < b → b < 1024 ^ 4 →
       ∃ i, 1024 ^ i ≤ b ∧ b < 1024 ^ (i + 1) ∧ i < 4 ∧
         (formatBytes b).dropWhile (fun c => decide (c ≠ ' '))
           = ' ' :: unitNames.getD i (("undefined").data)) ∧
    (∀ b : Nat, fracDigitCount (formatBytes b) ≤ 2) ∧
    (∀ b : Nat, '.' ∈ numericPart (formatBytes b) →
       (numericPart (formatBytes b)).getLast? ≠ some '0') := by
  have hnum : ∀ b : Nat, b ≠ 0 →
      numericPart (formatBytes b)
        = renderHundredths ((200 * b + 1024 ^ natLog1024 b)
            / (2 * 1024 ^ natLog1024 b)) := by
    intro b hb
    unfold formatBytes numericPart
    rw [if_neg hb]
    dsimp only []
    rw [takeWhile_append_all (renderHundredths_ne_space _)]
    simp
  refine ⟨rfl, ?_, ?_, ?_⟩
  · intro b hb hb4
    have hs := natLog1024_spec hb
    refine ⟨natLog1024 b, hs.1, hs.2, ?_, ?_⟩
    · by_contra hi
      push_neg at hi
      have : (1024 : Nat) ^ 4 ≤ 1024 ^ natLog1024 b :=
        Nat.pow_le_pow_right (by norm_num) hi
      omega
    · unfold formatBytes
      rw [if_neg (by omega)]
      dsimp only []
      rw [dropWhile_append_all (renderHundredths_ne_space _)]
      simp
  · intro b
    by_cases hb : b = 0
    · subst hb; decide
    · unfold fracDigitCount
      rw [hnum b hb]
      exact renderHundredths_fracCount _
  · intro b
    by_cases hb : b = 0
    · subst hb; intro h; exact absurd h (by decide)
    · rw [hnum b hb]
      exact renderHundredths_last _

theorem C9_format_bytes_amended_witness :
    (0 : Nat) < 1536 ∧ (1536 : Nat) < 1024 ^ 4 ∧
    (∃ i, 1024 ^ i ≤ 1536 ∧ 1536 < 1024 ^ (i + 1) ∧ i < 4 ∧
       (formatBytes 1536).dropWhile (fun c => decide (c ≠ ' '))
         = ' ' :: unitNames.getD i (("undefined").data)) ∧
    fracDigitCount (formatBytes 1536) ≤ 2 :=
  ⟨by norm_num, by norm_num,
   C9_format_bytes_amended.2.1 1536 (by norm_num) (by norm_num),
   C9_format_bytes_amended.2.2.1 1536⟩

/-! ## C3: position extraction and line/column computation -/

theorem calcLCAux_fst :
    ∀ (p : Str) (l c : Nat), (calcLCAux p l c).1 = l + p.count '\n' := by
  intro p
  induction p with
  | nil => intro l c; simp [calcLCAux]
  | cons x t ih =>
      intro l c
      by_cases hx : x = '\n'
      · subst hx
        rw [show calcLCAux ('\n' :: t) l c = calcLCAux t (l + 1) 1 from by
          simp [calcLCAux]]
        rw [ih]
        simp [List.count_cons]
        omega
      · rw [show calcLCAux (x :: t) l c = calcLCAux t l (c + 1) from by
          simp [calcLCAux, hx]]
        rw [ih]
        have : (x == '\n') = false := by simp [hx]
        simp [List.count_cons, this]

theorem calcLCAux_snd :
    ∀ (p : Str) (l c : Nat), (calcLCAux p l c).2
      = if '\n' ∈ p then
          1 + (p.reverse.takeWhile (fun x => decide (x ≠ '\n'))).length
        else c + p.length := by
  intro p
  induction p with
  | nil => intro l c; simp [calcLCAux]
  | cons x t ih =>
      intro l c
      by_cases hx : x = '\n'
      · subst hx
        rw [show calcLCAux ('\n' :: t) l c = calcLCAux t (l + 1) 1 from by
          simp [calcLCAux]]
        rw [ih]
        rw [if_pos (List.mem_cons_self '\n' t)]
        rw [List.reverse_cons]
        by_cases hm : '\n' ∈ t
        · rw [if_pos hm]
          rw [takeWhile_append_not_all (by
            intro hall
            have := hall '\n' (List.mem_reverse.mpr hm)
            simp at this)]
        · rw [if_neg hm]
          rw [takeWhile_append_all (by
            intro y hy2
            have hyt : y ∈ t := List.mem_reverse.mp hy2
            have : y ≠ '\n' := fun e => hm (e ▸ hyt)
            simpa using this)]
          rw [show List.takeWhile (fun x => decide (x ≠ '\n')) ['\n'] = [] from by
            decide]
          simp
      · rw [show calcLCAux (x :: t) l c = calcLCAux t l (c + 1) from by
          simp [calcLCAux, hx]]
        rw [ih]
        have hmem : ('\n' ∈ x :: t) ↔ ('\n' ∈ t) := by
          constructor
          · intro h
            rcases List.mem_cons.mp h with h | h
            · exact absurd h.symm hx
            · exact h
          · intro h; exact List.mem_cons.mpr (Or.inr h)
        by_cases hm : '\n' ∈ t
        · rw [if_pos hm, if_pos (hmem.mpr hm), List.reverse_cons]
          rw [takeWhile_append_not_all (by
            intro hall
            have := hall '\n' (List.mem_reverse.mpr hm)
            simp at this)]
        · rw [if_neg hm, if_neg (fun h => hm (hmem.mp h))]
          simp
          omega

/-- Claim C3: `fromJSONError` extracts the byte offset from the
case-insensitive "position N" pattern; with no match the position is 0 and
line/column stay unset; with a positive offset and non-empty source, line is
one plus the newlines in the scanned prefix `min(offset, length)` and column
counts from the last newline of that prefix (both starting at 1). -/
theorem C3_position_extraction (msg content : Str) :
    ((findPosition msg = none →
        (ErrorInfo.fromJSONError msg content).position = 0 ∧
        (ErrorInfo.fromJSONError msg content).line = none ∧
        (ErrorInfo.fromJSONError msg content).column = none) ∧
     (∀ n, findPosition msg = some n →
        (ErrorInfo.fromJSONError msg content).position = n) ∧
     (∀ n, findPosition msg = some n → 0 < n → content ≠ [] →
        (ErrorInfo.fromJSONError msg content).line
            = some (1 + (content.take (min n content.length)).count '\n') ∧
        (ErrorInfo.fromJSONError msg content).column
            = some (if '\n' ∈ content.take (min n content.length)
                then 1 + ((content.take (min n content.length)).reverse.takeWhile
                    (fun x => decide (x ≠ '\n'))).length
                else 1 + (content.take (min n content.length)).length)) ∧
     (∀ n, findPosition msg = some n → (n = 0 ∨ content = []) →
        (ErrorInfo.fromJSONError msg content).line = none ∧
        (ErrorInfo.fromJSONError msg content).column = none)) := by
  refine ⟨?_, ?_, ?_, ?_⟩
  · intro hf
    unfold ErrorInfo.fromJSONError
    rw [hf]
    dsimp only []
    rw [if_neg (by simp [ErrorInfo.mk0])]
    exact ⟨rfl, rfl, rfl⟩
  · intro n hf
    unfold ErrorInfo.fromJSONError
    rw [hf]
    dsimp only []
    split <;> rfl
  · intro n hf hn hc
    unfold ErrorInfo.fromJSONError
    rw [hf]
    dsimp only []
    rw [if_pos ⟨hc, hn⟩]
    unfold ErrorInfo.calculateLineColumn
    rw [calcLCAux_fst, calcLCAux_snd]
    exact ⟨rfl, rfl⟩
  · intro n hf hd
    unfold ErrorInfo.fromJSONError
    rw [hf]
    dsimp only []
    rcases hd with hd | hd
    · subst hd
      rw [if_neg (by simp)]
      exact ⟨rfl, rfl⟩
    · subst hd
      rw [if_neg (by simp)]
      exact ⟨rfl, rfl⟩

theorem C3_position_extraction_witness :
    (ErrorInfo.fromJSONError (("text at position 3").data) ['a', '\n', 'b', 'c']).line
        = some (1 + ((['a', '\n', 'b', 'c'] : Str).take
            (min 3 (['a', '\n', 'b', 'c'] : Str).length)).count '\n') ∧
    (ErrorInfo.fromJSONError (("text at position 3").data) ['a', '\n', 'b', 'c']).column
        = some (if '\n' ∈ (['a', '\n', 'b', 'c'] : Str).take
              (min 3 (['a', '\n', 'b', 'c'] : Str).length)
            then 1 + (((['a', '\n', 'b', 'c'] : Str).take
                (min 3 (['a', '\n', 'b', 'c'] : Str).length)).reverse.takeWhile
                (fun x => decide (x ≠ '\n'))).length
            else 1 + ((['a', '\n', 'b', 'c'] : Str).take
                (min 3 (['a', '\n', 'b', 'c'] : Str).length)).length) :=
  (C3_position_extraction (("text at position 3").data) ['a', '\n', 'b', 'c']).2.2.1
    3 (by rfl) (by norm_num) (by decide)

/-! ## C5: format on unparseable text -/

/-- Claim C5 (counterexample): on an unparseable text the formatter's result
carries only a message string; no structured diagnostic is attached (the
source never assigns `errorInfo` on a FormatResult, so reading it yields
`undefined`). -/
theorem C5_counterexample :
    (formatJSON parseJSONFn clkId 0 ['{'] { indentation := none }).1.success = false ∧
    (formatJSON parseJSONFn clkId 0 ['{'] { indentation := none }).1.errorInfo = none ∧
    (formatJSON parseJSONFn clkId 0 ['{'] { indentation := none }).1.error
      = some (("JSON parsing failed: Unexpected end of JSON input").data) :=
  ⟨rfl, rfl, rfl⟩

/-- Claim C5 (amended): for every raw text that reaches parsing and fails,
`formatJSON` returns an unsuccessful result with empty output whose `error`
is the message string "JSON parsing failed: " followed by the raw parse
message, and with no structured diagnostic attached. -/
theorem C5_parse_failure_message (p : ParseFn) (clk : Clock) (k : ℕ)
    (content : Str) (m : Str) (options : FmtOptions)
    (h1 : content ≠ []) (h2 : jsTrim content ≠ [])
    (h3 : p content = .error m) :
    (formatJSON p clk k content options).1.success = false ∧
    (formatJSON p clk k content options).1.formatted = [] ∧
    (formatJSON p clk k content options).1.error
      = some ((("JSON parsing failed: ").data) ++ m) ∧
    (formatJSON p clk k content options).1.errorInfo = none := by
  unfold formatJSON
  rw [if_neg h1, if_neg h2, h3]
  exact ⟨rfl, rfl, rfl, rfl⟩

theorem C5_parse_failure_message_witness :
    (formatJSON pFail clkId 0 ['x'] { indentation := none }).1.success = false ∧
    (formatJSON pFail clkId 0 ['x'] { indentation := none }).1.formatted = [] ∧
    (formatJSON pFail clkId 0 ['x'] { indentation := none }).1.error
      = some ((("JSON parsing failed: ").data) ++ []) ∧
    (formatJSON pFail clkId 0 ['x'] { indentation := none }).1.errorInfo = none :=
  C5_parse_failure_message pFail clkId 0 ['x'] [] { indentation := none }
    (by decide) (by decide) (by rfl)

/-! ## C2: the size check -/

/-- Claim C2 (counterexample): with `maxSizeBytes = 0` the `||` fallback
replaces the ceiling by the 1 MB default, so a 1-byte text passes the size
check even though its byte length exceeds N = 0. -/
theorem C2_counterexample :
    (validateJSON parseJSONFn clkId 0 ['x'] { maxSize := some 0 }).1.sizeValid = true ∧
    ¬ ((blobSize ['x'] : Int) ≤ 0) :=
  ⟨rfl, by decide⟩

/-- Claim C2 (amended): for every ceiling N ≥ 1 the size check passes exactly
when the byte length is ≤ N, the verdict's `size` is always the actual byte
length, and a text of exactly N+1 bytes is rejected with category
SizeExceeded; `validateSize` compares against its explicit ceiling for any N.
(With N = 0 the `options.maxSize || this.maxSize` fallback silently restores
the 1 MB default, so the claim fails there.) -/
theorem C2_size_check (p : ParseFn) (clk : Clock) (k : ℕ) (N : Int) (t : Str)
    (hN : 1 ≤ N) :
    ((validateJSON p clk k t { maxSize := some N }).1.sizeValid = true
        ↔ (blobSize t : Int) ≤ N) ∧
    (validateJSON p clk k t { maxSize := some N }).1.size = blobSize t ∧
    ((blobSize t : Int) = N + 1 →
       (validateJSON p clk k t { maxSize := some N }).1.isValid = false ∧
       (validateJSON p clk k t { maxSize := some N }).1.sizeValid = false ∧
       ((validateJSON p clk k t { maxSize := some N }).1.errorInfo.map
           (fun e => e.type.category)) = some .SizeExceeded) ∧
    ((validateSize t N).isValid = true ↔ (blobSize t : Int) ≤ N) := by
  have hvs : (validateSize t N).isValid = true ↔ (blobSize t : Int) ≤ N := by
    unfold validateSize
    dsimp only []
    constructor
    · intro h; exact of_decide_eq_true h
    · intro h; exact decide_eq_true h
  unfold validateJSON
  by_cases ht : t = []
  · subst ht
    rw [if_pos rfl]
    refine ⟨?_, ?_, ?_, hvs⟩
    · exact iff_of_true rfl (by simp [blobSize]; omega)
    · rfl
    · intro habs
      simp only [blobSize, List.map_nil, List.sum_nil] at habs
      omega
  · rw [if_neg ht]
    dsimp only []
    rw [show jsOr (some N) defaultMaxSize = N from by
      unfold jsOr; dsimp only []; rw [if_neg (by omega)]]
    by_cases hsz : (blobSize t : Int) ≤ N
    · rw [show decide ((blobSize t : Int) ≤ N) = true from decide_eq_true hsz]
      rw [if_neg (by simp)]
      by_cases htr : jsTrim t = []
      · rw [if_pos htr]
        exact ⟨iff_of_true rfl hsz, rfl, fun habs => absurd hsz (by omega), hvs⟩
      · rw [if_neg htr]
        cases hp : p t with
        | ok v =>
            exact ⟨iff_of_true rfl hsz, rfl, fun habs => absurd hsz (by omega), hvs⟩
        | error m =>
            exact ⟨iff_of_true rfl hsz, rfl, fun habs => absurd hsz (by omega), hvs⟩
    · rw [show decide ((blobSize t : Int) ≤ N) = false from decide_eq_false hsz]
      rw [if_pos rfl]
      exact ⟨iff_of_false (by simp) hsz, rfl, fun _ => ⟨rfl, rfl, rfl⟩, hvs⟩

theorem C2_size_check_witness :
    ((validateJSON parseJSONFn clkId 0 ['a', 'b'] { maxSize := some 1 }).1.sizeValid = true
        ↔ (blobSize ['a', 'b'] : Int) ≤ 1) ∧
    (validateJSON parseJSONFn clkId 0 ['a', 'b'] { maxSize := some 1 }).1.size
        = blobSize ['a', 'b'] ∧
    ((blobSize ['a', 'b'] : Int) = 1 + 1 →
       (validateJSON parseJSONFn clkId 0 ['a', 'b'] { maxSize := some 1 }).1.isValid = false ∧
       (validateJSON parseJSONFn clkId 0 ['a', 'b'] { maxSize := some 1 }).1.sizeValid = false ∧
       ((validateJSON parseJSONFn clkId 0 ['a', 'b'] { maxSize := some 1 }).1.errorInfo.map
           (fun e => e.type.category)) = some .SizeExceeded) ∧
    ((validateSize ['a', 'b'] 1).isValid = true ↔ (blobSize ['a', 'b'] : Int) ≤ 1) :=
  C2_size_check parseJSONFn clkId 0 1 ['a', 'b'] (by norm_num)

/-! ## C1: validator check order -/

/-- Claim C1: the validator's checks run in the fixed order missing-content,
size, whitespace-only, parse, the first failure short-circuiting the rest.
A non-empty all-whitespace text within the ceiling is rejected with category
Empty and message "Content is empty", and the outcome does not depend on the
parse primitive (it is never invoked); the same text over the ceiling is
rejected by the earlier size check instead. -/
theorem C1_check_order (p q : ParseFn) (clk : Clock) (k : ℕ) (t : Str)
    (options : VOptions) (hne : t ≠ []) (hws : jsTrim t = []) :
    validateJSON p clk k t options = validateJSON q clk k t options ∧
    ((blobSize t : Int) ≤ jsOr options.maxSize defaultMaxSize →
      (validateJSON p clk k t options).1.isValid = false ∧
      (validateJSON p clk k t options).1.error = some (("Content is empty").data) ∧
      ((validateJSON p clk k t options).1.errorInfo.map (fun e => e.type.category))
        = some .Empty) ∧
    (¬ ((blobSize t : Int) ≤ jsOr options.maxSize defaultMaxSize) →
      ((validateJSON p clk k t options).1.errorInfo.map (fun e => e.type.category))
        = some .SizeExceeded) := by
  unfold validateJSON
  rw [if_neg hne, if_neg hne]
  dsimp only []
  by_cases hsz : (blobSize t : Int) ≤ jsOr options.maxSize defaultMaxSize
  · rw [show decide ((blobSize t : Int) ≤ jsOr options.maxSize defaultMaxSize) = true
      from decide_eq_true hsz]
    rw [if_neg (show ¬(true = false) from by simp),
      if_neg (show ¬(true = false) from by simp)]
    rw [if_pos hws, if_pos hws]
    exact ⟨rfl, fun _ => ⟨rfl, rfl, rfl⟩, fun h => absurd hsz h⟩
  · rw [show decide ((blobSize t : Int) ≤ jsOr options.maxSize defaultMaxSize) = false
      from decide_eq_false hsz]
    rw [if_pos rfl, if_pos rfl]
    exact ⟨rfl, fun h => absurd h hsz, fun _ => rfl⟩

theorem C1_check_order_witness :
    validateJSON parseJSONFn clkId 0 [' ', ' ', ' '] { maxSize := none }
      = validateJSON pFail clkId 0 [' ', ' ', ' '] { maxSize := none } ∧
    ((blobSize [' ', ' ', ' '] : Int) ≤ jsOr none defaultMaxSize →
      (validateJSON parseJSONFn clkId 0 [' ', ' ', ' '] { maxSize := none }).1.isValid
        = false ∧
      (validateJSON parseJSONFn clkId 0 [' ', ' ', ' '] { maxSize := none }).1.error
        = some (("Content is empty").data) ∧
      ((validateJSON parseJSONFn clkId 0 [' ', ' ', ' ']
          { maxSize := none }).1.errorInfo.map (fun e => e.type.category))
        = some .Empty) ∧
    (¬ ((blobSize [' ', ' ', ' '] : Int) ≤ jsOr none defaultMaxSize) →
      ((validateJSON parseJSONFn clkId 0 [' ', ' ', ' ']
          { maxSize := none }).1.errorInfo.map (fun e => e.type.category))
        = some .SizeExceeded) :=
  C1_check_order parseJSONFn pFail clkId 0 [' ', ' ', ' '] { maxSize := none }
    (by decide) (by rfl)

/-! ## C4 and C10: the processor -/

theorem validateJSON_counter_le (p : ParseFn) (clk : Clock) (k : ℕ)
    (content : Str) (options : VOptions) :
    k ≤ (validateJSON p clk k content options).2 := by
  unfold validateJSON
  by_cases ht : content = []
  · rw [if_pos ht]
  · rw [if_neg ht]
    dsimp only []
    by_cases h1 : decide ((blobSize content : Int)
        ≤ jsOr options.maxSize defaultMaxSize) = false
    · rw [if_pos h1]
    · rw [if_neg h1]
      by_cases h2 : jsTrim content = []
      · rw [if_pos h2]
      · rw [if_neg h2]
        cases hp : p content <;> simp only [hp] <;> omega

theorem validateJSON_isValid_ne_nil (p : ParseFn) (clk : Clock) (k : ℕ)
    (content : Str) (options : VOptions)
    (h : (validateJSON p clk k content options).1.isValid = true) :
    content ≠ [] := by
  intro he
  rw [he] at h
  unfold validateJSON at h
  rw [if_pos rfl] at h
  exact absurd h (by simp)

/-- Claim C4: whenever validation fails, `processJSON` returns immediately
with `success = false`, empty formatted and minified strings, the validator's
error and diagnostic carried over, statistics left empty, and a positive
`processingTime` computed from two clock reads even on this early exit. -/
theorem C4_early_failure (p : ParseFn) (clk : Clock) (k : ℕ) (content : Str)
    (options : POptions) (hmono : StrictMono clk)
    (hv : (validateJSON p clk (k + 1) content
        { maxSize := options.maxSize }).1.isValid = false) :
    (processJSON p clk k content options).1.success = false ∧
    (processJSON p clk k content options).1.isValid = false ∧
    (processJSON p clk k content options).1.formatted = [] ∧
    (processJSON p clk k content options).1.minified = [] ∧
    (processJSON p clk k content options).1.error
      = (validateJSON p clk (k + 1) content { maxSize := options.maxSize }).1.error ∧
    (processJSON p clk k content options).1.errorInfo
      = (validateJSON p clk (k + 1) content { maxSize := options.maxSize }).1.errorInfo ∧
    (processJSON p clk k content options).1.stats = none ∧
    0 < (processJSON p clk k content options).1.processingTime := by
  unfold processJSON
  dsimp only []
  rw [if_pos hv]
  refine ⟨rfl, hv, rfl, rfl, rfl, rfl, rfl, ?_⟩
  have hcnt : k + 1 ≤ (validateJSON p clk (k + 1) content
      { maxSize := options.maxSize }).2 :=
    validateJSON_counter_le p clk (k + 1) content { maxSize := options.maxSize }
  have hlt : clk k < clk (validateJSON p clk (k + 1) content
      { maxSize := options.maxSize }).2 :=
    hmono (by omega)
  exact sub_pos.mpr hlt

theorem C4_early_failure_witness :
    (processJSON parseJSONFn clkId 0 [] { maxSize := none, indentation := none }).1.success
      = false ∧
    (processJSON parseJSONFn clkId 0 [] { maxSize := none, indentation := none }).1.isValid
      = false ∧
    (processJSON parseJSONFn clkId 0 [] { maxSize := none, indentation := none }).1.formatted
      = [] ∧
    (processJSON parseJSONFn clkId 0 [] { maxSize := none, indentation := none }).1.minified
      = [] ∧
    (processJSON parseJSONFn clkId 0 [] { maxSize := none, indentation := none }).1.error
      = (validateJSON parseJSONFn clkId 1 [] { maxSize := none }).1.error ∧
    (processJSON parseJSONFn clkId 0 [] { maxSize := none, indentation := none }).1.errorInfo
      = (validateJSON parseJSONFn clkId 1 [] { maxSize := none }).1.errorInfo ∧
    (processJSON parseJSONFn clkId 0 [] { maxSize := none, indentation := none }).1.stats
      = none ∧
    0 < (processJSON parseJSONFn clkId 0 []
        { maxSize := none, indentation := none }).1.processingTime :=
  C4_early_failure parseJSONFn clkId 0 [] { maxSize := none, indentation := none }
    (fun a b hab => by unfold clkId; exact_mod_cast hab) (by rfl)

/-- Claim C10: whenever `processJSON` reaches statistics computation (its
result is successful), the original text's byte size is strictly positive, so
the compression- and expansion-ratio divisions never divide by zero. -/
theorem C10_stats_denominator (p : ParseFn) (clk : Clock) (k : ℕ)
    (content : Str) (options : POptions)
    (h : (processJSON p clk k content options).1.success = true) :
    ∃ s, (processJSON p clk k content options).1.stats = some s ∧
      s.originalSize = blobSize content ∧ 0 < s.originalSize := by
  unfold processJSON at h ⊢
  dsimp only [] at h ⊢
  by_cases hv : (validateJSON p clk (k + 1) content
      { maxSize := options.maxSize }).1.isValid = false
  · rw [if_pos hv] at h
    exact absurd h (by simp)
  · rw [if_neg hv] at h ⊢
    by_cases hf : (formatJSON p clk
        (validateJSON p clk (k + 1) content { maxSize := options.maxSize }).2 content
        { indentation := some (jsOr options.indentation 2) }).1.success = false
    · rw [if_pos hf] at h
      exact absurd h (by simp)
    · rw [if_neg hf] at h ⊢
      by_cases hm : (minifyJSON p clk
          (formatJSON p clk
            (validateJSON p clk (k + 1) content { maxSize := options.maxSize }).2 content
            { indentation := some (jsOr options.indentation 2) }).2 content).1.success
          = false
      · rw [if_pos hm] at h
        exact absurd h (by simp)
      · rw [if_neg hm] at h ⊢
        refine ⟨_, rfl, rfl, ?_⟩
        have hvalid : (validateJSON p clk (k + 1) content
            { maxSize := options.maxSize }).1.isValid = true := by
          cases hb : (validateJSON p clk (k + 1) content
              { maxSize := options.maxSize }).1.isValid
          · exact absurd hb hv
          · rfl
        have hne := validateJSON_isValid_ne_nil p clk (k + 1) content
          { maxSize := options.maxSize } hvalid
        simpa [calculateStats] using blobSize_pos hne

theorem C10_stats_denominator_witness :
    ∃ s, (processJSON parseJSONFn clkId 0 ['1', '2']
        { maxSize := none, indentation := none }).1.stats = some s ∧
      s.originalSize = blobSize ['1', '2'] ∧ 0 < s.originalSize :=
  C10_stats_denominator parseJSONFn clkId 0 ['1', '2']
    { maxSize := none, indentation := none } (by rfl)

/-! ## Round-trip infrastructure: whitespace and digits -/

theorem skipJsonWs_cons_not {c : Char} {s : Str} (h : isJsonWs c = false) :
    skipJsonWs (c :: s) = c :: s := by
  simp [skipJsonWs, List.dropWhile_cons, h]

theorem skipJsonWs_append_ws {u s : Str} (h : ∀ c ∈ u, isJsonWs c = true) :
    skipJsonWs (u ++ s) = skipJsonWs s := by
  induction u with
  | nil => simp
  | cons a t ih =>
      have ha : isJsonWs a = true := h a (by simp)
      simp only [List.cons_append, skipJsonWs, List.dropWhile_cons, ha, if_true]
      exact ih (by intro c hc; exact h c (by simp [hc]))

theorem spacesOnly_ws {u : Str} (h : SpacesOnly u) :
    ∀ c ∈ u, isJsonWs c = true := by
  intro c hc
  rw [h c hc]
  decide

theorem spacesOnly_append {u v : Str} (hu : SpacesOnly u) (hv : SpacesOnly v) :
    SpacesOnly (u ++ v) := by
  intro c hc
  rcases List.mem_append.mp hc with hc | hc
  · exact hu c hc
  · exact hv c hc

theorem spacesOnly_gapOf (space : Int) : SpacesOnly (gapOf space) := by
  intro c hc
  exact (List.eq_of_mem_replicate hc)

theorem parseAux_ws_agnostic (f : Nat) (mode : PMode) {u : Str} (s : Str)
    (h : ∀ c ∈ u, isJsonWs c = true) :
    parseAux f mode (u ++ s) = parseAux f mode s := by
  cases f with
  | zero => rfl
  | succ f => cases mode <;> simp only [parseAux, skipJsonWs_append_ws h]

theorem takeDigits_append {u rest : Str}
    (hu : ∀ c ∈ u, isDigitC c = true) (hr : noDigitHead rest) :
    takeDigits (u ++ rest) = (u, rest) := by
  unfold takeDigits
  have h1 : List.takeWhile isDigitC (u ++ rest) = u := by
    rw [takeWhile_append_all hu]
    cases rest with
    | nil => simp
    | cons c t =>
        have hc : isDigitC c = false := hr
        simp [List.takeWhile_cons, hc]
  have h2 : List.dropWhile isDigitC (u ++ rest) = rest := by
    rw [dropWhile_append_all hu]
    cases rest with
    | nil => simp
    | cons c t =>
        have hc : isDigitC c = false := hr
        simp [List.dropWhile_cons, hc]
  rw [h1, h2]

theorem digitVal_digitChar {m : Nat} (h : m < 10) : digitVal (digitChar m) = m := by
  interval_cases m <;> decide

theorem natToDigitsAux_acc :
    ∀ f n acc, natToDigitsAux f n acc = natToDigitsAux f n [] ++ acc := by
  intro f
  induction f with
  | zero => intro n acc; simp [natToDigitsAux]
  | succ f ih =>
      intro n acc
      by_cases h : n < 10
      · simp [natToDigitsAux, h]
      · simp only [natToDigitsAux, if_neg h]
        rw [ih (n / 10) (digitChar (n % 10) :: acc),
          ih (n / 10) [digitChar (n % 10)]]
        simp

theorem digitsToNat_concat (u : Str) (d : Char) :
    digitsToNat (u ++ [d]) = digitsToNat u * 10 + digitVal d := by
  unfold digitsToNat
  rw [List.foldl_append]
  rfl

theorem digitsToNat_natToDigitsAux :
    ∀ f n, n ≤ f → digitsToNat (natToDigitsAux f n []) = n := by
  intro f
  induction f with
  | zero =>
      intro n hn
      have : n = 0 := by omega
      subst this
      decide
  | succ f ih =>
      intro n hn
      by_cases h : n < 10
      · simp only [natToDigitsAux, if_pos h]
        show digitsToNat ([] ++ [digitChar n]) = n
        rw [digitsToNat_concat]
        simp [digitsToNat, digitVal_digitChar h]
      · simp only [natToDigitsAux, if_neg h]
        rw [natToDigitsAux_acc]
        rw [digitsToNat_concat]
        rw [ih (n / 10) (by omega)]
        rw [digitVal_digitChar (Nat.mod_lt _ (by omega))]
        omega

theorem digitsToNat_natToDigits (n : Nat) : digitsToNat (natToDigits n) = n :=
  digitsToNat_natToDigitsAux n n le_rfl

theorem natToDigitsAux_ne_nil (f n : Nat) (acc : Str) :
    natToDigitsAux f n acc ≠ [] := by
  cases f with
  | zero => simp [natToDigitsAux]
  | succ f =>
      by_cases h : n < 10
      · simp [natToDigitsAux, h]
      · simp only [natToDigitsAux, if_neg h]
        rw [natToDigitsAux_acc]
        simp [natToDigitsAux_ne_nil f (n / 10) []]

/-! ## Round-trip infrastructure: strings -/

theorem charOfNat_toNat {c : Char} (h : c.toNat < 55296) :
    Char.ofNat c.toNat = c := by
  unfold Char.ofNat
  rw [dif_pos (Or.inl h : Nat.isValidChar c.toNat)]
  apply Char.eq_of_val_eq
  apply UInt32.eq_of_val_eq
  apply Fin.ext
  rfl

theorem hexVal_hexDigitChar {m : Nat} (h : m < 16) :
    hexVal (hexDigitChar m) = some m := by
  interval_cases m <;> decide

theorem parseStrBody_lit {c : Char} {r : Str} (h1 : c ≠ '"') (h2 : c ≠ '\\')
    (h3 : ¬ c.toNat < 32) :
    parseStrBody (c :: r) = consHead c (parseStrBody r) := by
  conv_lhs => rw [parseStrBody.eq_def]
  dsimp only []
  rw [if_neg h1, if_neg h2, if_neg h3]

theorem parseStrBody_esc2 (e : Char) (r : Str) :
    parseStrBody ('\\' :: e :: r)
      = (if e = '"' then consHead '"' (parseStrBody r)
        else if e = '\\' then consHead '\\' (parseStrBody r)
        else if e = '/' then consHead '/' (parseStrBody r)
        else if e = 'b' then consHead (Char.ofNat 8) (parseStrBody r)
        else if e = 'f' then consHead (Char.ofNat 12) (parseStrBody r)
        else if e = 'n' then consHead '\n' (parseStrBody r)
        else if e = 'r' then consHead (Char.ofNat 13) (parseStrBody r)
        else if e = 't' then consHead (Char.ofNat 9) (parseStrBody r)
        else if e = 'u' then
          match r with
          | a :: b :: c2 :: d :: r2 =>
              match hexVal a, hexVal b, hexVal c2, hexVal d with
              | some ha, some hb, some hc, some hd =>
                  if ((ha * 16 + hb) * 16 + hc) * 16 + hd < 55296
                      ∨ 57343 < ((ha * 16 + hb) * 16 + hc) * 16 + hd then
                    consHead (Char.ofNat (((ha * 16 + hb) * 16 + hc) * 16 + hd))
                      (parseStrBody r2)
                  else none
              | _, _, _, _ => none
          | _ => none
        else none) := by
  conv_lhs => rw [parseStrBody.eq_def]
  dsimp only []
  rw [if_neg (show ('\\' : Char) ≠ '"' from by decide), if_pos rfl]
  rfl

theorem parseStrBody_u_esc {a b c2 d : Char} {na nb nc nd : Nat} {r : Str}
    (ha : hexVal a = some na) (hb : hexVal b = some nb)
    (hc : hexVal c2 = some nc) (hd : hexVal d = some nd)
    (hcode : ((na * 16 + nb) * 16 + nc) * 16 + nd < 55296) :
    parseStrBody ('\\' :: 'u' :: a :: b :: c2 :: d :: r)
      = consHead (Char.ofNat (((na * 16 + nb) * 16 + nc) * 16 + nd))
          (parseStrBody r) := by
  rw [parseStrBody_esc2]
  rw [if_neg (by decide), if_neg (by decide), if_neg (by decide),
    if_neg (by decide), if_neg (by decide), if_neg (by decide),
    if_neg (by decide), if_neg (by decide), if_pos rfl]
  dsimp only []
  rw [ha, hb, hc, hd]
  dsimp only []
  rw [if_pos (Or.inl hcode)]

theorem parseStrBody_escChar (c : Char) (X : Str) :
    parseStrBody (escChar c ++ X) = consHead c (parseStrBody X) := by
  unfold escChar
  by_cases h1 : c = '"'
  · subst h1
    rw [if_pos rfl]
    rw [show ['\\', '"'] ++ X = '\\' :: '"' :: X from rfl, parseStrBody_esc2,
      if_pos rfl]
  · rw [if_neg h1]
    by_cases h2 : c = '\\'
    · subst h2
      rw [if_pos rfl]
      rw [show ['\\', '\\'] ++ X = '\\' :: '\\' :: X from rfl, parseStrBody_esc2,
        if_neg (by decide), if_pos rfl]
    · rw [if_neg h2]
      by_cases h3 : c.toNat = 8
      · rw [if_pos h3]
        rw [show ['\\', 'b'] ++ X = '\\' :: 'b' :: X from rfl, parseStrBody_esc2,
          if_neg (by decide), if_neg (by decide), if_neg (by decide), if_pos rfl]
        rw [show Char.ofNat 8 = c from by rw [← h3]; exact charOfNat_toNat (by omega)]
      · rw [if_neg h3]
        by_cases h4 : c.toNat = 12
        · rw [if_pos h4]
          rw [show ['\\', 'f'] ++ X = '\\' :: 'f' :: X from rfl, parseStrBody_esc2,
            if_neg (by decide), if_neg (by decide), if_neg (by decide),
            if_neg (by decide), if_pos rfl]
          rw [show Char.ofNat 12 = c from by rw [← h4]; exact charOfNat_toNat (by omega)]
        · rw [if_neg h4]
          by_cases h5 : c = '\n'
          · subst h5
            rw [if_pos rfl]
            rw [show ['\\', 'n'] ++ X = '\\' :: 'n' :: X from rfl, parseStrBody_esc2,
              if_neg (by decide), if_neg (by decide), if_neg (by decide),
              if_neg (by decide), if_neg (by decide), if_pos rfl]
          · rw [if_neg h5]
            by_cases h6 : c.toNat = 13
            · rw [if_pos h6]
              rw [show ['\\', 'r'] ++ X = '\\' :: 'r' :: X from rfl, parseStrBody_esc2,
                if_neg (by decide), if_neg (by decide), if_neg (by decide),
                if_neg (by decide), if_neg (by decide), if_neg (by decide),
                if_pos rfl]
              rw [show Char.ofNat 13 = c from by
                rw [← h6]; exact charOfNat_toNat (by omega)]
            · rw [if_neg h6]
              by_cases h7 : c.toNat = 9
              · rw [if_pos h7]
                rw [show ['\\', 't'] ++ X = '\\' :: 't' :: X from rfl,
                  parseStrBody_esc2,
                  if_neg (by decide), if_neg (by decide), if_neg (by decide),
                  if_neg (by decide), if_neg (by decide), if_neg (by decide),
                  if_neg (by decide), if_pos rfl]
                rw [show Char.ofNat 9 = c from by
                  rw [← h7]; exact charOfNat_toNat (by omega)]
              · rw [if_neg h7]
                by_cases h8 : c.toNat < 32
                · rw [if_pos h8]
                  have hd1 : c.toNat / 16 < 16 := by omega
                  have hd2 : c.toNat % 16 < 16 := by omega
                  rw [show ['\\', 'u', '0', '0', hexDigitChar (c.toNat / 16),
                        hexDigitChar (c.toNat % 16)] ++ X
                      = '\\' :: 'u' :: '0' :: '0' :: hexDigitChar (c.toNat / 16)
                        :: hexDigitChar (c.toNat % 16) :: X from rfl]
                  rw [parseStrBody_u_esc (show hexVal '0' = some 0 from rfl)
                    (show hexVal '0' = some 0 from rfl)
                    (hexVal_hexDigitChar hd1) (hexVal_hexDigitChar hd2)
                    (by omega)]
                  rw [show ((0 * 16 + 0) * 16 + c.toNat / 16) * 16 + c.toNat % 16
                      = c.toNat from by omega]
                  rw [charOfNat_toNat (by omega)]
                · rw [if_neg h8]
                  exact parseStrBody_lit h1 h2 h8

theorem parseStrBody_rt (s : Str) :
    ∀ rest, parseStrBody (escBody s ++ '"' :: rest) = some (s, rest) := by
  induction s with
  | nil =>
      intro rest
      show parseStrBody ([] ++ '"' :: rest) = some ([], rest)
      rw [List.nil_append, parseStrBody.eq_def]
      dsimp only []
      rw [if_pos rfl]
  | cons c cs ih =>
      intro rest
      show parseStrBody ((escChar c ++ escBody cs) ++ '"' :: rest) = _
      rw [List.append_assoc, parseStrBody_escChar, ih]
      rfl

/-! ## Round-trip infrastructure: serializer output shape -/

theorem quoteStr_parse (s : Str) (rest : Str) :
    parseStrBody (escBody s ++ ['"'] ++ rest) = some (s, rest) := by
  rw [List.append_assoc]
  exact parseStrBody_rt s rest

theorem natToDigits_head (n : Nat) :
    ∃ d t, natToDigits n = d :: t ∧ isDigitC d = true := by
  cases h : natToDigits n with
  | nil => exact absurd h (natToDigitsAux_ne_nil _ _ _)
  | cons d t =>
      refine ⟨d, t, rfl, natToDigits_all_digits n d ?_⟩
      rw [h]
      simp

theorem intToDigits_head (i : Int) :
    ∃ d t, intToDigits i = d :: t ∧ (d = '-' ∨ isDigitC d = true) := by
  unfold intToDigits
  by_cases h : i < 0
  · rw [if_pos h]
    exact ⟨'-', _, rfl, Or.inl rfl⟩
  · rw [if_neg h]
    obtain ⟨d, t, he, hd⟩ := natToDigits_head i.toNat
    exact ⟨d, t, he, Or.inr hd⟩

theorem strVal_head (gap ind : Str) (v : JVal) :
    ∃ c t, strVal gap ind v = c :: t ∧ IsTokenHead c := by
  cases v with
  | null => exact ⟨'n', _, rfl, by unfold IsTokenHead; tauto⟩
  | bool b =>
      cases b with
      | true => exact ⟨'t', _, rfl, by unfold IsTokenHead; tauto⟩
      | false => exact ⟨'f', _, rfl, by unfold IsTokenHead; tauto⟩
  | num i =>
      obtain ⟨d, t, he, hd⟩ := intToDigits_head i
      refine ⟨d, t, ?_, ?_⟩
      · rw [show strVal gap ind (.num i) = intToDigits i from rfl, he]
      · unfold IsTokenHead; tauto
  | str s => exact ⟨'"', _, rfl, by unfold IsTokenHead; tauto⟩
  | arr xs =>
      cases xs with
      | nil => exact ⟨'[', _, rfl, by unfold IsTokenHead; tauto⟩
      | cons x xs => exact ⟨'[', _, rfl, by unfold IsTokenHead; tauto⟩
  | obj ms =>
      cases ms with
      | nil => exact ⟨'{', _, rfl, by unfold IsTokenHead; tauto⟩
      | cons k v ms => exact ⟨'{', _, rfl, by unfold IsTokenHead; tauto⟩

theorem isTokenHead_not_jsonWs {c : Char} (h : IsTokenHead c) :
    isJsonWs c = false := by
  unfold IsTokenHead at h
  rcases h with h | h | h | h | h | h | h | h
  · subst h; decide
  · subst h; decide
  · subst h; decide
  · subst h; decide
  · subst h; decide
  · subst h; decide
  · subst h; decide
  · have hb : 48 ≤ c.toNat ∧ c.toNat ≤ 57 := by simpa [isDigitC] using h
    unfold isJsonWs
    simp only [Bool.or_eq_false_iff]
    refine ⟨⟨⟨?_, ?_⟩, ?_⟩, ?_⟩ <;>
      · rw [beq_eq_false_iff_ne]
        intro e
        subst e
        exact absurd hb (by decide)

theorem isTokenHead_not_jsWs {c : Char} (h : IsTokenHead c) :
    isJSWs c = false := by
  unfold IsTokenHead at h
  rcases h with h | h | h | h | h | h | h | h
  · subst h; decide
  · subst h; decide
  · subst h; decide
  · subst h; decide
  · subst h; decide
  · subst h; decide
  · subst h; decide
  · have hb : 48 ≤ c.toNat ∧ c.toNat ≤ 57 := by simpa [isDigitC] using h
    unfold isJSWs
    rw [decide_eq_false_iff_not]
    intro hmem
    simp [jsWsCodes] at hmem
    omega

theorem isTokenHead_ne_rbracket {c : Char} (h : IsTokenHead c) : c ≠ ']' := by
  unfold IsTokenHead at h
  rcases h with h | h | h | h | h | h | h | h
  all_goals first
    | (subst h; decide)
    | (intro e; subst e; exact absurd h (by decide))

theorem isTokenHead_ne_rbrace {c : Char} (h : IsTokenHead c) : c ≠ '}' := by
  unfold IsTokenHead at h
  rcases h with h | h | h | h | h | h | h | h
  all_goals first
    | (subst h; decide)
    | (intro e; subst e; exact absurd h (by decide))

theorem strATail_length_pos (gap ind : Str) (xs : JArr) :
    1 ≤ (strATail gap ind xs).length := by
  cases xs <;> by_cases hg : gap = [] <;> simp [strATail, hg]

theorem strOTail_length_pos (gap ind : Str) (ms : JObj) :
    1 ≤ (strOTail gap ind ms).length := by
  cases ms <;> by_cases hg : gap = [] <;> simp [strOTail, hg]

mutual
theorem fuelV_le_len : ∀ (v : JVal) (gap ind : Str),
    fuelV v ≤ (strVal gap ind v).length + 1
  | .null, gap, ind => by simp only [fuelV, strVal]; omega
  | .bool true, gap, ind => by simp only [fuelV, strVal]; omega
  | .bool false, gap, ind => by simp only [fuelV, strVal]; omega
  | .num i, gap, ind => by simp only [fuelV, strVal]; omega
  | .str s, gap, ind => by simp only [fuelV, strVal]; omega
  | .arr .nil, gap, ind => by simp only [fuelV, strVal]; omega
  | .arr (.cons x xs), gap, ind => by
      have h1 := fuelV_le_len x gap (ind ++ gap)
      have h2 := fuelA_le_len xs gap ind
      have h3 := strATail_length_pos gap ind xs
      simp only [fuelV, strVal, List.length_cons, List.length_append]
      split <;>
        (simp only [List.length_append, List.length_cons, List.length_nil]; omega)
  | .obj .nil, gap, ind => by simp only [fuelV, strVal]; omega
  | .obj (.cons k v ms), gap, ind => by
      have h1 := fuelV_le_len v gap (ind ++ gap)
      have h2 := fuelO_le_len ms gap ind
      have h3 := strOTail_length_pos gap ind ms
      simp only [fuelV, strVal, List.length_cons, List.length_append]
      split <;>
        (simp only [List.length_append, List.length_cons, List.length_nil]; omega)
theorem fuelA_le_len : ∀ (xs : JArr) (gap ind : Str),
    fuelA xs ≤ (strATail gap ind xs).length
  | .nil, gap, ind => strATail_length_pos gap ind .nil
  | .cons y ys, gap, ind => by
      have h1 := fuelV_le_len y gap (ind ++ gap)
      have h2 := fuelA_le_len ys gap ind
      have h3 := strATail_length_pos gap ind ys
      simp only [fuelA, strATail, List.length_cons, List.length_append]
      split <;>
        (simp only [List.length_append, List.length_cons, List.length_nil]; omega)
theorem fuelO_le_len : ∀ (ms : JObj) (gap ind : Str),
    fuelO ms ≤ (strOTail gap ind ms).length
  | .nil, gap, ind => strOTail_length_pos gap ind .nil
  | .cons k v ms, gap, ind => by
      have h1 := fuelV_le_len v gap (ind ++ gap)
      have h2 := fuelO_le_len ms gap ind
      have h3 := strOTail_length_pos gap ind ms
      simp only [fuelO, strOTail, List.length_cons, List.length_append]
      split <;>
        (simp only [List.length_append, List.length_cons, List.length_nil]; omega)
end

theorem fuelV_pos (v : JVal) : 1 ≤ fuelV v := by
  cases v with
  | arr xs => cases xs <;> simp [fuelV]
  | obj ms => cases ms <;> simp [fuelV]
  | bool b => simp [fuelV]
  | _ => simp [fuelV]

theorem fuelA_pos (xs : JArr) : 1 ≤ fuelA xs := by
  cases xs <;> simp [fuelA]

theorem fuelO_pos (ms : JObj) : 1 ≤ fuelO ms := by
  cases ms <;> simp [fuelO]

theorem isDigitC_isTokenHead {c : Char} (h : isDigitC c = true) : IsTokenHead c := by
  unfold IsTokenHead
  tauto

theorem isDigitC_ne_tokens {c : Char} (h : isDigitC c = true) :
    c ≠ '{' ∧ c ≠ '[' ∧ c ≠ '"' ∧ c ≠ 't' ∧ c ≠ 'f' ∧ c ≠ 'n' ∧ c ≠ '-' := by
  refine ⟨?_, ?_, ?_, ?_, ?_, ?_, ?_⟩ <;>
    · intro e
      subst e
      exact absurd h (by decide)

theorem preWs {gap ind : Str} (hg : SpacesOnly gap) (hi : SpacesOnly ind) :
    ∀ c ∈ (if gap = [] then ([] : Str) else '\n' :: (ind ++ gap)),
      isJsonWs c = true := by
  split
  · intro c hc; cases hc
  · intro c hc
    rcases List.mem_cons.mp hc with hc | hc
    · subst hc; decide
    · exact spacesOnly_ws (spacesOnly_append hi hg) c hc

theorem spWs {gap : Str} :
    ∀ c ∈ (if gap = [] then ([] : Str) else [' ']), isJsonWs c = true := by
  split
  · intro c hc; cases hc
  · intro c hc
    rcases List.mem_cons.mp hc with hc | hc
    · subst hc; decide
    · cases hc

theorem noDigitHead_cons {c : Char} {t : Str} (h : isDigitC c = false) :
    noDigitHead (c :: t) := h

theorem noDigitHead_strATail (gap ind : Str) (xs : JArr) (rest : Str) :
    noDigitHead (strATail gap ind xs ++ rest) := by
  cases xs <;> by_cases hg : gap = [] <;>
    simp only [strATail, hg, if_pos, if_neg, List.cons_append] <;>
    exact noDigitHead_cons (by decide)

theorem noDigitHead_strOTail (gap ind : Str) (ms : JObj) (rest : Str) :
    noDigitHead (strOTail gap ind ms ++ rest) := by
  cases ms <;> by_cases hg : gap = [] <;>
    simp only [strOTail, hg, if_pos, if_neg, List.cons_append] <;>
    exact noDigitHead_cons (by decide)

theorem parseAux_rt : ∀ f : Nat,
    (∀ (v : JVal) (gap ind rest : Str), SpacesOnly gap → SpacesOnly ind →
       fuelV v ≤ f → noDigitHead rest →
       parseAux f .val (strVal gap ind v ++ rest) = some (.val v, rest)) ∧
    (∀ (xs : JArr) (gap ind rest : Str), SpacesOnly gap → SpacesOnly ind →
       fuelA xs ≤ f → noDigitHead rest →
       parseAux f .atail (strATail gap ind xs ++ rest) = some (.arrTail xs, rest)) ∧
    (∀ (ms : JObj) (gap ind rest : Str), SpacesOnly gap → SpacesOnly ind →
       fuelO ms ≤ f → noDigitHead rest →
       parseAux f .otail (strOTail gap ind ms ++ rest) = some (.objTail ms, rest)) := by
  intro f
  induction f with
  | zero =>
      refine ⟨?_, ?_, ?_⟩
      · intro v _ _ _ _ _ hf _
        exact absurd hf (by have := fuelV_pos v; omega)
      · intro xs _ _ _ _ _ hf _
        exact absurd hf (by have := fuelA_pos xs; omega)
      · intro ms _ _ _ _ _ hf _
        exact absurd hf (by have := fuelO_pos ms; omega)
  | succ f ih =>
      obtain ⟨ihV, ihA, ihO⟩ := ih
      refine ⟨?_, ?_, ?_⟩
      · intro v gap ind rest hg hi hf hr
        cases v with
        | null =>
            rw [show strVal gap ind .null ++ rest
                = 'n' :: 'u' :: 'l' :: 'l' :: rest from rfl]
            simp only [parseAux,
              skipJsonWs_cons_not (show isJsonWs 'n' = false from by decide)]
            simp
        | bool b =>
            cases b with
            | true =>
                rw [show strVal gap ind (.bool true) ++ rest
                    = 't' :: 'r' :: 'u' :: 'e' :: rest from rfl]
                simp only [parseAux,
                  skipJsonWs_cons_not (show isJsonWs 't' = false from by decide)]
                simp
            | false =>
                rw [show strVal gap ind (.bool false) ++ rest
                    = 'f' :: 'a' :: 'l' :: 's' :: 'e' :: rest from rfl]
                simp only [parseAux,
                  skipJsonWs_cons_not (show isJsonWs 'f' = false from by decide)]
                simp
        | num i =>
            rw [show strVal gap ind (.num i) = intToDigits i from rfl]
            unfold intToDigits
            by_cases hneg : i < 0
            · rw [if_pos hneg]
              obtain ⟨d, t, he, hd⟩ := natToDigits_head i.natAbs
              rw [List.cons_append]
              simp only [parseAux,
                skipJsonWs_cons_not (show isJsonWs '-' = false from by decide)]
              rw [if_neg (by decide), if_neg (by decide), if_neg (by decide),
                if_neg (by decide), if_neg (by decide), if_neg (by decide),
                if_pos (by trivial)]
              rw [takeDigits_append (natToDigits_all_digits _) hr]
              rw [he]
              dsimp only []
              rw [← he, digitsToNat_natToDigits]
              rw [show (-(i.natAbs : Int)) = i from by omega]
            · rw [if_neg hneg]
              obtain ⟨d, t, he, hd⟩ := natToDigits_head i.toNat
              obtain ⟨hc1, hc2, hc3, hc4, hc5, hc6, hc7⟩ := isDigitC_ne_tokens hd
              rw [he, List.cons_append]
              simp only [parseAux,
                skipJsonWs_cons_not (isTokenHead_not_jsonWs (isDigitC_isTokenHead hd))]
              rw [if_neg hc1, if_neg hc2, if_neg hc3, if_neg hc4, if_neg hc5,
                if_neg hc6, if_neg hc7, if_pos hd]
              rw [← List.cons_append, ← he]
              rw [takeDigits_append (natToDigits_all_digits _) hr]
              dsimp only []
              rw [digitsToNat_natToDigits]
              rw [show ((i.toNat : Int)) = i from by omega]
        | str s =>
            rw [show strVal gap ind (.str s) ++ rest
                = '"' :: (escBody s ++ ['"'] ++ rest) from by
              simp [strVal, quoteStr, List.append_assoc]]
            simp only [parseAux,
              skipJsonWs_cons_not (show isJsonWs '"' = false from by decide)]
            rw [if_neg (by decide), if_neg (by decide), if_pos (by trivial)]
            rw [quoteStr_parse]
        | arr xs =>
            cases xs with
            | nil =>
                rw [show strVal gap ind (.arr .nil) ++ rest
                    = '[' :: ']' :: rest from rfl]
                simp only [parseAux,
                  skipJsonWs_cons_not (show isJsonWs '[' = false from by decide)]
                simp
                rw [skipJsonWs_cons_not (show isJsonWs ']' = false from by decide)]
                simp
            | cons x xs =>
                simp only [fuelV] at hf
                obtain ⟨cx, tx, hx, htok⟩ := strVal_head gap (ind ++ gap) x
                rw [show strVal gap ind (.arr (.cons x xs))
                    = '[' :: ((if gap = [] then [] else '\n' :: (ind ++ gap))
                      ++ strVal gap (ind ++ gap) x ++ strATail gap ind xs)
                    from rfl]
                rw [List.cons_append]
                simp only [parseAux,
                  skipJsonWs_cons_not (show isJsonWs '[' = false from by decide)]
                rw [if_neg (by decide), if_pos (by trivial)]
                have hskip : skipJsonWs (((if gap = [] then [] else '\n' :: (ind ++ gap))
                    ++ strVal gap (ind ++ gap) x ++ strATail gap ind xs) ++ rest)
                    = cx :: (tx ++ (strATail gap ind xs ++ rest)) := by
                  rw [hx]
                  simp only [List.append_assoc, List.cons_append]
                  rw [skipJsonWs_append_ws (preWs hg hi)]
                  exact skipJsonWs_cons_not (isTokenHead_not_jsonWs htok)
                rw [hskip]
                dsimp only []
                rw [if_neg (isTokenHead_ne_rbracket htok)]
                have hval : parseAux f .val
                    (((if gap = [] then [] else '\n' :: (ind ++ gap))
                      ++ strVal gap (ind ++ gap) x ++ strATail gap ind xs) ++ rest)
                    = some (.val x, strATail gap ind xs ++ rest) := by
                  rw [show ((if gap = [] then [] else '\n' :: (ind ++ gap))
                      ++ strVal gap (ind ++ gap) x ++ strATail gap ind xs) ++ rest
                      = (if gap = [] then [] else '\n' :: (ind ++ gap))
                        ++ (strVal gap (ind ++ gap) x
                          ++ (strATail gap ind xs ++ rest)) from by
                    simp [List.append_assoc]]
                  rw [parseAux_ws_agnostic f .val _ (preWs hg hi)]
                  exact ihV x gap (ind ++ gap) (strATail gap ind xs ++ rest) hg
                    (spacesOnly_append hi hg) (by omega)
                    (noDigitHead_strATail gap ind xs rest)
                rw [hval]
                dsimp only []
                rw [ihA xs gap ind rest hg hi (by omega) hr]
        | obj ms =>
            cases ms with
            | nil =>
                rw [show strVal gap ind (.obj .nil) ++ rest
                    = '{' :: '}' :: rest from rfl]
                simp only [parseAux,
                  skipJsonWs_cons_not (show isJsonWs '{' = false from by decide)]
                simp
                rw [skipJsonWs_cons_not (show isJsonWs '}' = false from by decide)]
                simp
            | cons k v ms =>
                simp only [fuelV] at hf
                rw [show strVal gap ind (.obj (.cons k v ms))
                    = '{' :: ((if gap = [] then [] else '\n' :: (ind ++ gap))
                      ++ quoteStr k ++ ':' :: ((if gap = [] then [] else [' '])
                      ++ strVal gap (ind ++ gap) v ++ strOTail gap ind ms))
                    from rfl]
                rw [List.cons_append]
                simp only [parseAux,
                  skipJsonWs_cons_not (show isJsonWs '{' = false from by decide)]
                rw [if_pos (by trivial)]
                have hskip : skipJsonWs (((if gap = [] then [] else '\n' :: (ind ++ gap))
                    ++ quoteStr k ++ ':' :: ((if gap = [] then [] else [' '])
                    ++ strVal gap (ind ++ gap) v ++ strOTail gap ind ms)) ++ rest)
                    = '"' :: (escBody k ++ '"' :: (':'
                      :: ((if gap = [] then [] else [' '])
                        ++ strVal gap (ind ++ gap) v ++ strOTail gap ind ms) ++ rest)) := by
                  unfold quoteStr
                  simp only [List.append_assoc, List.cons_append, List.nil_append]
                  rw [skipJsonWs_append_ws (preWs hg hi)]
                  rw [skipJsonWs_cons_not (show isJsonWs '"' = false from by decide)]
                rw [hskip]
                dsimp only []
                rw [if_neg (by decide), if_pos (by trivial)]
                rw [show escBody k ++ '"' :: (':'
                      :: ((if gap = [] then [] else [' '])
                        ++ strVal gap (ind ++ gap) v ++ strOTail gap ind ms) ++ rest)
                    = escBody k ++ '"' :: (':'
                      :: (((if gap = [] then [] else [' '])
                        ++ strVal gap (ind ++ gap) v ++ strOTail gap ind ms) ++ rest))
                    from by simp]
                rw [parseStrBody_rt]
                dsimp only []
                rw [skipJsonWs_cons_not (show isJsonWs ':' = false from by decide)]
                dsimp only []
                rw [if_pos (by trivial)]
                have hval : parseAux f .val
                    (((if gap = [] then [] else [' '])
                      ++ strVal gap (ind ++ gap) v ++ strOTail gap ind ms) ++ rest)
                    = some (.val v, strOTail gap ind ms ++ rest) := by
                  rw [show ((if gap = [] then [] else [' '])
                      ++ strVal gap (ind ++ gap) v ++ strOTail gap ind ms) ++ rest
                      = (if gap = [] then [] else [' '])
                        ++ (strVal gap (ind ++ gap) v
                          ++ (strOTail gap ind ms ++ rest)) from by
                    simp [List.append_assoc]]
                  rw [parseAux_ws_agnostic f .val _ spWs]
                  exact ihV v gap (ind ++ gap) (strOTail gap ind ms ++ rest) hg
                    (spacesOnly_append hi hg) (by omega)
                    (noDigitHead_strOTail gap ind ms rest)
                rw [hval]
                dsimp only []
                rw [ihO ms gap ind rest hg hi (by omega) hr]
      · intro xs gap ind rest hg hi hf hr
        cases xs with
        | nil =>
            by_cases hgap : gap = []
            · rw [show strATail gap ind .nil = [']'] from by simp [strATail, hgap]]
              rw [show ([']'] : Str) ++ rest = ']' :: rest from rfl]
              simp only [parseAux,
                skipJsonWs_cons_not (show isJsonWs ']' = false from by decide)]
              simp
            · rw [show strATail gap ind .nil = '\n' :: (ind ++ [']']) from by
                simp [strATail, hgap]]
              have hskip : skipJsonWs (('\n' :: (ind ++ [']'])) ++ rest)
                  = ']' :: rest := by
                rw [show ('\n' :: (ind ++ [']'])) ++ rest
                    = ('\n' :: ind) ++ (']' :: rest) from by simp]
                rw [skipJsonWs_append_ws (by
                  intro c hc
                  rcases List.mem_cons.mp hc with hc | hc
                  · subst hc; decide
                  · exact spacesOnly_ws hi c hc)]
                exact skipJsonWs_cons_not (by decide)
              simp only [parseAux, hskip]
              simp
        | cons y ys =>
            simp only [fuelA] at hf
            rw [show strATail gap ind (.cons y ys)
                = ',' :: ((if gap = [] then [] else '\n' :: (ind ++ gap))
                  ++ strVal gap (ind ++ gap) y ++ strATail gap ind ys) from rfl]
            rw [List.cons_append]
            simp only [parseAux,
              skipJsonWs_cons_not (show isJsonWs ',' = false from by decide)]
            rw [if_neg (by decide), if_pos (by trivial)]
            have hval : parseAux f .val
                (((if gap = [] then [] else '\n' :: (ind ++ gap))
                  ++ strVal gap (ind ++ gap) y ++ strATail gap ind ys) ++ rest)
                = some (.val y, strATail gap ind ys ++ rest) := by
              rw [show ((if gap = [] then [] else '\n' :: (ind ++ gap))
                  ++ strVal gap (ind ++ gap) y ++ strATail gap ind ys) ++ rest
                  = (if gap = [] then [] else '\n' :: (ind ++ gap))
                    ++ (strVal gap (ind ++ gap) y
                      ++ (strATail gap ind ys ++ rest)) from by
                simp [List.append_assoc]]
              rw [parseAux_ws_agnostic f .val _ (preWs hg hi)]
              exact ihV y gap (ind ++ gap) (strATail gap ind ys ++ rest) hg
                (spacesOnly_append hi hg) (by omega)
                (noDigitHead_strATail gap ind ys rest)
            rw [hval]
            dsimp only []
            rw [ihA ys gap ind rest hg hi (by omega) hr]
      · intro ms gap ind rest hg hi hf hr
        cases ms with
        | nil =>
            by_cases hgap : gap = []
            · rw [show strOTail gap ind .nil = ['}'] from by simp [strOTail, hgap]]
              rw [show (['}'] : Str) ++ rest = '}' :: rest from rfl]
              simp only [parseAux,
                skipJsonWs_cons_not (show isJsonWs '}' = false from by decide)]
              simp
            · rw [show strOTail gap ind .nil = '\n' :: (ind ++ ['}']) from by
                simp [strOTail, hgap]]
              have hskip : skipJsonWs (('\n' :: (ind ++ ['}'])) ++ rest)
                  = '}' :: rest := by
                rw [show ('\n' :: (ind ++ ['}'])) ++ rest
                    = ('\n' :: ind) ++ ('}' :: rest) from by simp]
                rw [skipJsonWs_append_ws (by
                  intro c hc
                  rcases List.mem_cons.mp hc with hc | hc
                  · subst hc; decide
                  · exact spacesOnly_ws hi c hc)]
                exact skipJsonWs_cons_not (by decide)
              simp only [parseAux, hskip]
              simp
        | cons k v ms =>
            simp only [fuelO] at hf
            rw [show strOTail gap ind (.cons k v ms)
                = ',' :: ((if gap = [] then [] else '\n' :: (ind ++ gap))
                  ++ quoteStr k ++ ':' :: ((if gap = [] then [] else [' '])
                  ++ strVal gap (ind ++ gap) v ++ strOTail gap ind ms)) from rfl]
            rw [List.cons_append]
            simp only [parseAux,
              skipJsonWs_cons_not (show isJsonWs ',' = false from by decide)]
            rw [if_neg (by decide), if_pos (by trivial)]
            have hskip : skipJsonWs (((if gap = [] then [] else '\n' :: (ind ++ gap))
                ++ quoteStr k ++ ':' :: ((if gap = [] then [] else [' '])
                ++ strVal gap (ind ++ gap) v ++ strOTail gap ind ms)) ++ rest)
                = '"' :: (escBody k ++ '"' :: (':'
                  :: ((if gap = [] then [] else [' '])
                    ++ strVal gap (ind ++ gap) v ++ strOTail gap ind ms) ++ rest)) := by
              unfold quoteStr
              simp only [List.append_assoc, List.cons_append, List.nil_append]
              rw [skipJsonWs_append_ws (preWs hg hi)]
              rw [skipJsonWs_cons_not (show isJsonWs '"' = false from by decide)]
            rw [hskip]
            dsimp only []
            rw [if_pos (by trivial)]
            rw [show escBody k ++ '"' :: (':'
                  :: ((if gap = [] then [] else [' '])
                    ++ strVal gap (ind ++ gap) v ++ strOTail gap ind ms) ++ rest)
                = escBody k ++ '"' :: (':'
                  :: (((if gap = [] then [] else [' '])
                    ++ strVal gap (ind ++ gap) v ++ strOTail gap ind ms) ++ rest))
                from by simp]
            rw [parseStrBody_rt]
            dsimp only []
            rw [skipJsonWs_cons_not (show isJsonWs ':' = false from by decide)]
            dsimp only []
            rw [if_pos (by trivial)]
            have hval : parseAux f .val
                (((if gap = [] then [] else [' '])
                  ++ strVal gap (ind ++ gap) v ++ strOTail gap ind ms) ++ rest)
                = some (.val v, strOTail gap ind ms ++ rest) := by
              rw [show ((if gap = [] then [] else [' '])
                  ++ strVal gap (ind ++ gap) v ++ strOTail gap ind ms) ++ rest
                  = (if gap = [] then [] else [' '])
                    ++ (strVal gap (ind ++ gap) v
                      ++ (strOTail gap ind ms ++ rest)) from by
                simp [List.append_assoc]]
              rw [parseAux_ws_agnostic f .val _ spWs]
              exact ihV v gap (ind ++ gap) (strOTail gap ind ms ++ rest) hg
                (spacesOnly_append hi hg) (by omega)
                (noDigitHead_strOTail gap ind ms rest)
            rw [hval]
            dsimp only []
            rw [ihO ms gap ind rest hg hi (by omega) hr]

/-! ## C6 and C7: serializer round trip through the formatter -/

theorem dropWhile_head_false {p : Char → Bool} :
    ∀ {l : Str} {c : Char} {r : Str}, l.dropWhile p = c :: r → p c = false := by
  intro l
  induction l with
  | nil => intro c r h; cases h
  | cons a t ih =>
      intro c r h
      by_cases ha : p a = true
      · rw [List.dropWhile_cons, if_pos ha] at h
        exact ih h
      · rw [List.dropWhile_cons, if_neg ha] at h
        cases h
        exact Bool.not_eq_true _ |>.mp ha

theorem parseJSONFn_strVal (v : JVal) (gap : Str) (hg : SpacesOnly gap) :
    parseJSONFn (strVal gap [] v) = .ok v := by
  unfold parseJSONFn
  have h := (parseAux_rt ((strVal gap [] v).length + 1)).1 v gap [] [] hg
    (by intro c hc; cases hc)
    (le_trans (fuelV_le_len v gap []) (by omega))
    (by unfold noDigitHead; trivial)
  rw [List.append_nil] at h
  rw [h]
  dsimp only []
  rw [show skipJsonWs [] = [] from rfl]
  rw [if_pos rfl]

theorem parseJSONFn_ok_ne_nil {T : Str} {v : JVal}
    (h : parseJSONFn T = .ok v) : T ≠ [] := by
  intro he
  subst he
  rw [show parseJSONFn [] = .error (("Unexpected end of JSON input").data) from rfl] at h
  exact Except.noConfusion h

theorem parseJSONFn_ok_trim {T : Str} {v : JVal}
    (h : parseJSONFn T = .ok v) : jsTrim T ≠ [] := by
  intro htr
  have hws : ∀ c ∈ T, isJSWs c = true := (jsTrim_eq_nil_iff T).mp htr
  unfold parseJSONFn at h
  cases hs : skipJsonWs T with
  | nil =>
      simp only [parseAux, hs] at h
      exact Except.noConfusion h
  | cons c r =>
      have hcmem : c ∈ T := by
        refine (List.dropWhile_sublist isJsonWs).subset ?_
        rw [show T.dropWhile isJsonWs = skipJsonWs T from rfl, hs]
        simp
      have hcw : c.toNat ∈ jsWsCodes := of_decide_eq_true (hws c hcmem)
      have hcnws : isJsonWs c = false := dropWhile_head_false hs
      have hd : isDigitC c = false := by
        simp [jsWsCodes] at hcw
        rcases hcw with h1 | h1 | h1 | h1 | h1 | h1 | h1 | h1 | h1 | h1 | h1 | h1
          | h1 | h1 | h1 | h1 | h1 | h1 | h1 | h1 | h1 | h1 | h1 | h1 | h1 <;>
          simp [isDigitC, h1]
      have hne1 : c ≠ '{' := fun e => by subst e; exact absurd hcw (by decide)
      have hne2 : c ≠ '[' := fun e => by subst e; exact absurd hcw (by decide)
      have hne3 : c ≠ '"' := fun e => by subst e; exact absurd hcw (by decide)
      have hne4 : c ≠ 't' := fun e => by subst e; exact absurd hcw (by decide)
      have hne5 : c ≠ 'f' := fun e => by subst e; exact absurd hcw (by decide)
      have hne6 : c ≠ 'n' := fun e => by subst e; exact absurd hcw (by decide)
      have hne7 : c ≠ '-' := fun e => by subst e; exact absurd hcw (by decide)
      simp only [parseAux, hs] at h
      rw [if_neg hne1, if_neg hne2, if_neg hne3, if_neg hne4, if_neg hne5,
        if_neg hne6, if_neg hne7, if_neg (by rw [hd]; exact Bool.false_ne_true)] at h
      exact Except.noConfusion h

/-- Claim C6: minifying the pretty-printed output of a valid text yields the
same string as minifying the original directly — re-serialization is
canonical regardless of the intermediate pretty-printing. -/
theorem C6_minify_format_idempotent (clk1 clk2 clk3 : Clock) (k1 k2 k3 : ℕ)
    (T : Str) (v : JVal) (h : parseJSONFn T = .ok v) :
    (minifyJSON parseJSONFn clk2 k2
        (formatJSON parseJSONFn clk1 k1 T { indentation := none }).1.formatted).1.minified
      = (minifyJSON parseJSONFn clk3 k3 T).1.minified := by
  have hne := parseJSONFn_ok_ne_nil h
  have htr := parseJSONFn_ok_trim h
  have hfmt : (formatJSON parseJSONFn clk1 k1 T { indentation := none }).1.formatted
      = strVal (gapOf 2) [] v := by
    unfold formatJSON
    rw [if_neg hne, if_neg htr, h]
    dsimp only []
    rw [show validateIndentation (jsOr none defaultIndentation) = 2 from by
      unfold validateIndentation jsOr defaultIndentation maxIndentation
      norm_num]
  rw [hfmt]
  obtain ⟨c0, t0, hhead, htok⟩ := strVal_head (gapOf 2) [] v
  have hne2 : strVal (gapOf 2) [] v ≠ [] := by rw [hhead]; simp
  have htr2 : jsTrim (strVal (gapOf 2) [] v) ≠ [] := by
    rw [hhead]
    exact jsTrim_cons_ne_nil (isTokenHead_not_jsWs htok)
  have hparse2 : parseJSONFn (strVal (gapOf 2) [] v) = .ok v :=
    parseJSONFn_strVal v (gapOf 2) (spacesOnly_gapOf 2)
  unfold minifyJSON
  rw [if_neg hne2, if_neg htr2, hparse2, if_neg hne, if_neg htr, h]

theorem C6_minify_format_idempotent_witness :
    (minifyJSON parseJSONFn clkId 0
        (formatJSON parseJSONFn clkId 0 ['{', '"', 'a', '"', ':', '1', '}']
          { indentation := none }).1.formatted).1.minified
      = (minifyJSON parseJSONFn clkId 0 ['{', '"', 'a', '"', ':', '1', '}']).1.minified :=
  C6_minify_format_idempotent clkId clkId clkId 0 0 0
    ['{', '"', 'a', '"', ':', '1', '}'] (.obj (.cons ['a'] (.num 1) .nil)) (by rfl)

/-- Claim C7: for a valid text and an indentation width outside [1, 8], the
formatter succeeds anyway and behaves exactly as with the component default
of 2 spaces per level; the out-of-range width never fails the operation. -/
theorem C7_indentation_clamp (clk : Clock) (k : ℕ) (content : Str) (v : JVal)
    (w : Int) (h : parseJSONFn content = .ok v) (hw : w < 1 ∨ 8 < w) :
    formatJSON parseJSONFn clk k content { indentation := some w }
      = formatJSON parseJSONFn clk k content { indentation := some 2 } ∧
    (formatJSON parseJSONFn clk k content { indentation := some w }).1.success
      = true ∧
    (formatJSON parseJSONFn clk k content { indentation := some w }).1.formatted
      = strVal (gapOf 2) [] v := by
  have hne := parseJSONFn_ok_ne_nil h
  have htr := parseJSONFn_ok_trim h
  have hind : validateIndentation (jsOr (some w) defaultIndentation) = 2 := by
    unfold jsOr
    dsimp only []
    by_cases h0 : w = 0
    · rw [if_pos h0]
      unfold validateIndentation defaultIndentation maxIndentation
      norm_num
    · rw [if_neg h0]
      unfold validateIndentation defaultIndentation maxIndentation
      rw [if_neg (by omega)]
  have hind2 : validateIndentation (jsOr (some 2) defaultIndentation) = 2 := by
    unfold validateIndentation jsOr defaultIndentation maxIndentation
    norm_num
  refine ⟨?_, ?_, ?_⟩
  · unfold formatJSON
    rw [if_neg hne, if_neg hne, if_neg htr, if_neg htr, h]
    dsimp only []
    rw [hind, hind2]
  · unfold formatJSON
    rw [if_neg hne, if_neg htr, h]
  · unfold formatJSON
    rw [if_neg hne, if_neg htr, h]
    dsimp only []
    rw [hind]

theorem C7_indentation_clamp_witness :
    formatJSON parseJSONFn clkId 0 ['{', '"', 'a', '"', ':', '1', '}']
        { indentation := some 20 }
      = formatJSON parseJSONFn clkId 0 ['{', '"', 'a', '"', ':', '1', '}']
          { indentation := some 2 } ∧
    (formatJSON parseJSONFn clkId 0 ['{', '"', 'a', '"', ':', '1', '}']
        { indentation := some 20 }).1.success = true ∧
    (formatJSON parseJSONFn clkId 0 ['{', '"', 'a', '"', ':', '1', '}']
        { indentation := some 20 }).1.formatted
      = strVal (gapOf 2) [] (.obj (.cons ['a'] (.num 1) .nil)) :=
  C7_indentation_clamp clkId 0 ['{', '"', 'a', '"', ':', '1', '}']
    (.obj (.cons ['a'] (.num 1) .nil)) 20 (by rfl) (by norm_num)

/-- Sanity: the serializer reproduces the concrete pretty-printing the spec
gives for the input of scenario 1. -/
theorem strVal_scenario1 :
    strVal (gapOf 2) [] (.obj (.cons ['a'] (.num 1) .nil))
      = ['{', '\n', ' ', ' ', '"', 'a', '"', ':', ' ', '1', '\n', '}'] := rfl

/-- Sanity: the compact serialization of the same value. -/
theorem strVal_scenario1_minified :
    strVal [] [] (.obj (.cons ['a'] (.num 1) .nil))
      = ['{', '"', 'a', '"', ':', '1', '}'] := rfl
